import Mathlib

/-!
Verification of the XOrm data-access layer (eframework-org/GO.CRUD).

This file gives a shallow embedding, in Lean 4, of the parts of the XOrm
package that the specification's claims are about: the condition-matcher
fragment of `context_read.go`, the two-tier cache layer of
`context_cache.go`, the CRUD primitives (`Read`, `List`, `Delete`, `Clear`,
`Count`, `Incre`, `Write`), the per-model lock counters, and the commit
batch replay of the commit pipeline.

Modelling conventions:
  * Go `sync.Map` / `XCollect.Map` values are embedded as association
    lists `List (String × α)`; `Load` is `alookup`, `Store` is `aset`,
    `LoadOrStore` is a lookup followed by an insert when absent (it never
    replaces an existing entry, exactly like `sync.Map.LoadOrStore`),
    `LoadAndDelete` is a lookup followed by `aremove`.
  * The process-wide two-level maps (`modelKey → dataKey → …`) are
    projected onto a single model key and a single goroutine (session):
    every claim under study concerns one model type and one session, so
    the state carries only the inner `dataKey`-indexed map of that model,
    as an `Option` (`none` embeds the Go case in which the inner map has
    not been created yet, i.e. `getGlobalCache`/`getSessionCache` return
    `nil`).
  * `IModel` instances are embedded as `GModel` values; the Go pointer
    comparisons (`gobj != model`) are embedded as structural equality,
    and in-place mutation through a pointer held in a cache is embedded
    as an update of the map entry.
  * A `Condition` is treated, as the specification prescribes, as a black
    box: an opaque predicate `GModel → Bool`.  The internal matcher
    (`doComp` helpers of `context_read.go`) is embedded separately over
    `GoVal` for the claims that are about it.
  * Go float32/float64 field values are carried as rationals: the claims
    about them are decided by the type dispatch of the matcher (which
    never performs float arithmetic), so exact rationals are a faithful
    carrier for the comparisons involved.
  * Remote (persistence-engine) calls are parameters of the embedded
    primitives; each primitive also returns the list of remote effects it
    performed, so that claims of the form "does not consult the remote
    store" can be stated.
-/

namespace XOrm

/-- Association-list lookup, embedding `sync.Map.Load`. -/
def alookup {α : Type} : List (String × α) → String → Option α
  | [], _ => none
  | (k, v) :: t, key => if k = key then some v else alookup t key

/-- Association-list store, embedding `sync.Map.Store`: replaces the entry in
place when the key is present, appends otherwise. -/
def aset {α : Type} : List (String × α) → String → α → List (String × α)
  | [], key, v => [(key, v)]
  | (k, w) :: t, key, v =>
    if k = key then (key, v) :: t else (k, w) :: aset t key v

/-- Update the entry at a key in place when present (embeds a mutation through
a pointer obtained from the map); no-op when the key is absent. -/
def aupdate {α : Type} : List (String × α) → String → (α → α) → List (String × α)
  | [], _, _ => []
  | (k, w) :: t, key, f =>
    if k = key then (k, f w) :: t else (k, w) :: aupdate t key f

/-- Association-list removal, embedding `sync.Map.Delete`. -/
def aremove {α : Type} : List (String × α) → String → List (String × α)
  | [], _ => []
  | (k, w) :: t, key => if k = key then t else (k, w) :: aremove t key

end XOrm

namespace XOrm

/-! ### The condition matcher fragment (`context_read.go`, third document)

`doComp` obtains the model's field value by reflection and dispatches on the
operator.  We embed the Go values a field or an operand can take as `GoVal`
(machine integers are embedded as unbounded integers: the matcher only
compares them, never overflows them, and float32/float64 as rationals). -/

/-- A Go value as seen by the reflective matcher. -/
inductive GoVal where
  | vint (i : Int)
  | vint32 (i : Int)
  | vint64 (i : Int)
  | vfloat32 (q : Rat)
  | vfloat64 (q : Rat)
  | vstring (s : String)
  | vbool (b : Bool)
  deriving DecidableEq, Repr

/-- `isIntegerType` of `context_read.go`: reflect kind is Int, Int32 or Int64. -/
def isIntegerType : GoVal → Bool
  | .vint _ => true
  | .vint32 _ => true
  | .vint64 _ => true
  | _ => false

/-- `isFloatType` of `context_read.go`: reflect kind is Float32 or Float64. -/
def isFloatType : GoVal → Bool
  | .vfloat32 _ => true
  | .vfloat64 _ => true
  | _ => false

/-- `isNumericType` of `context_read.go`. -/
def isNumericType (v : GoVal) : Bool :=
  isIntegerType v || isFloatType v

/-- `toInt64` of `context_read.go`: succeeds on `int`, `int32`, `int64` only;
every other dynamic type (floats included) falls to the default branch and
fails. -/
def toInt64 : GoVal → Option Int
  | .vint i => some i
  | .vint32 i => some i
  | .vint64 i => some i
  | _ => none

/-- `toFloat64` of `context_read.go`: succeeds on `float32`/`float64`
(directly or through the reflect fallback, which again accepts only float
kinds), fails otherwise. -/
def toFloat64 : GoVal → Option Rat
  | .vfloat32 q => some q
  | .vfloat64 q => some q
  | _ => none

/-- `handleIntegerComparisonOperator` of `context_read.go`: converts both
sides with `toInt64` and compares. -/
def handleIntegerComparisonOperator (cvalue : GoVal) (operator : String) (arg : GoVal) : Bool :=
  match toInt64 cvalue, toInt64 arg with
  | some cval, some val =>
    if operator = "gt" then decide (cval > val)
    else if operator = "gte" then decide (cval ≥ val)
    else if operator = "lt" then decide (cval < val)
    else if operator = "lte" then decide (cval ≤ val)
    else false
  | _, _ => false

/-- `handleFloatComparisonOperator` of `context_read.go`.  Note: the source
converts both sides with `toInt64` (not `toFloat64`), exactly as embedded
here. -/
def handleFloatComparisonOperator (cvalue : GoVal) (operator : String) (arg : GoVal) : Bool :=
  match toInt64 cvalue, toInt64 arg with
  | some cval, some val =>
    if operator = "gt" then decide (cval > val)
    else if operator = "gte" then decide (cval ≥ val)
    else if operator = "lt" then decide (cval < val)
    else if operator = "lte" then decide (cval ≤ val)
    else false
  | _, _ => false

/-- `handleComparisonOperator` of `context_read.go`: non-numeric field types
fail; integer kinds go to the integer handler, float kinds to the float
handler. -/
def handleComparisonOperator (cvalue : GoVal) (operator : String) (arg : GoVal) : Bool :=
  if ¬isNumericType cvalue then false
  else if isIntegerType cvalue then handleIntegerComparisonOperator cvalue operator arg
  else handleFloatComparisonOperator cvalue operator arg

/-! #### The `in` operator and its per-condition operand cache

`handleInOperator` receives the operand list (`args[0]` of the condition
node) and the condition's `matchContext`, a map from `(field, depth)` to the
converted operand list.  We embed the one cache slot the evaluation uses (the
slot of the given field and depth) as an `Option CachedArgs`, and a failed Go
type assertion (`val.([]int64)` on a value that is not an `[]int64`), which
panics at run time, as the `Except.error` outcome. -/

/-- The operand list of an `in` condition, by dynamic element type. -/
inductive InArg where
  | int32s (l : List Int)
  | ints (l : List Int)
  | int64s (l : List Int)
  | float32s (l : List Rat)
  | float64s (l : List Rat)
  | strs (l : List String)

/-- A value stored in the `matchContext.inCache` map: either a converted
`[]int64` or a converted `[]float64`. -/
inductive CachedArgs where
  | cints (l : List Int)
  | cfloats (l : List Rat)

/-- `handleIntegerInOperator` of `context_read.go`. -/
def handleIntegerInOperator (cvalue : GoVal) (args : List Int) : Bool :=
  match toInt64 cvalue with
  | some cval => args.contains cval
  | none => false

/-- `handleFloatInOperator` of `context_read.go`. -/
def handleFloatInOperator (cvalue : GoVal) (args : List Rat) : Bool :=
  match toFloat64 cvalue with
  | some cval => args.contains cval
  | none => false

/-- `handleStringInOperator` of `context_read.go`. -/
def handleStringInOperator (cvalue : GoVal) (args : List String) : Bool :=
  match cvalue with
  | .vstring cval => args.contains cval
  | _ => false

/-- `handleInOperator` of `context_read.go`, with the relevant
`(field, depth)` cache slot made explicit.  The `[]int32`, `[]int` and
`[]float32` branches first probe the cache and type-assert a hit to
`[]int64`; a hit holding a `[]float64` therefore panics (`Except.error`).
On a miss the `[]int32`/`[]int` branches cache the list converted to
`[]int64`, while the `[]float32` branch caches the list converted to
`[]float64` — and then matches through the float handler.  `[]int64`,
`[]float64` and `[]string` operands are used directly and never touch the
cache. -/
def handleInOperator (cvalue : GoVal) (args : InArg) (cache : Option CachedArgs) :
    Except Unit (Bool × Option CachedArgs) :=
  match args with
  | .int32s l =>
    match cache with
    | some (.cints c) => .ok (handleIntegerInOperator cvalue c, cache)
    | some (.cfloats _) => .error ()
    | none => .ok (handleIntegerInOperator cvalue l, some (.cints l))
  | .ints l =>
    match cache with
    | some (.cints c) => .ok (handleIntegerInOperator cvalue c, cache)
    | some (.cfloats _) => .error ()
    | none => .ok (handleIntegerInOperator cvalue l, some (.cints l))
  | .int64s l => .ok (handleIntegerInOperator cvalue l, cache)
  | .float32s l =>
    match cache with
    | some (.cints c) => .ok (handleIntegerInOperator cvalue c, cache)
    | some (.cfloats _) => .error ()
    | none => .ok (handleFloatInOperator cvalue l, some (.cfloats l))
  | .float64s l => .ok (handleFloatInOperator cvalue l, cache)
  | .strs l => .ok (handleStringInOperator cvalue l, cache)

end XOrm

namespace XOrm

/-! ### The cache layer (`context_cache.go`)

The state below is the projection of the process-wide maps onto one model
key and one goroutine (session), as described in the header. -/

/-- An `IModel` instance: its data key (`DataUnique`), its persisted fields
(collapsed into one opaque payload — the CRUD layer never inspects them,
it only clones, compares and matches instances), and the soft-deletion
marker `IsValid`. -/
structure GModel where
  mkey : String
  dkey : String
  payload : Int
  valid : Bool
  deriving DecidableEq, Repr

/-- `Model.Clone`: a deep copy of the instance; the copy is re-validated
(`IsValid(true)` in `Model[T].Clone`). -/
def clone (m : GModel) : GModel := { m with valid := true }

/-- A `Condition`, treated as a black-box predicate over models, exactly as
the specification prescribes for the CRUD layer. -/
def Cond : Type := GModel → Bool

/-- `Model.Matchs` with an optional condition: a missing condition matches
everything. -/
def matchs (cond : Option Cond) (m : GModel) : Bool :=
  match cond with
  | none => true
  | some p => p m

/-- `sessionObject` of `context_cache.go`: the per-(session, instance)
entry.  `write` is the write-state (0 unmarked, 1 read-only, 2
read-write). -/
structure SObj where
  raw : Option GModel
  ptr : GModel
  write : Nat
  create : Bool
  delete : Bool
  clear : Option Cond

/-- `sessionObject.isWritable` of `context_cache.go` (lines 76–93): with a
status argument, unmarked (0) moves to read-only (1) or read-write (2),
read-only (1) may only be upgraded to read-write (2), and any other state
(in particular read-write, 2) is left unchanged; without a status argument
the state is only queried. -/
def isWritable (write : Nat) (status : Option Bool) : Nat :=
  match status with
  | none => write
  | some b =>
    match write with
    | 0 => if b then 2 else 1
    | 1 => if b then 2 else 1
    | w => w

/-- `setGlobalCache` of `context_cache.go` (lines 126–138).  The outer
`LoadOrStore` creates the model's inner map when absent; the inner
`LoadOrStore` installs the instance when the data key is absent and
otherwise returns the existing entry unchanged.  When the existing entry
is a different instance, an overwrite error is logged exactly when that
entry is still valid.  Returns the new inner map and whether the overwrite
log fired. -/
def setGlobalCache (global : Option (List (String × GModel))) (model : GModel) :
    Option (List (String × GModel)) × Bool :=
  let gmap := global.getD []
  match alookup gmap model.dkey with
  | none => (some (aset gmap model.dkey model), false)
  | some gobj => (some gmap, gobj ≠ model && gobj.valid)

/-- `setSessionCache` of `context_cache.go` (lines 147–166).  A fresh entry
(obtained from the pool in its reset state) stores the live instance as
`ptr` and a clone as `raw`; when an entry already exists and holds a
different instance, `ptr` and `raw` are re-assigned (with an overwrite
error logged when the old `ptr` was still valid — the log is not part of
the returned state).  Returns the new map and the entry. -/
def setSessionCache (session : Option (List (String × SObj))) (model : GModel) :
    List (String × SObj) × SObj :=
  let smap := session.getD []
  match alookup smap model.dkey with
  | none =>
    let sobj : SObj :=
      { raw := some (clone model), ptr := model, write := 0,
        create := false, delete := false, clear := none }
    (aset smap model.dkey sobj, sobj)
  | some sobj =>
    if sobj.ptr = model then (smap, sobj)
    else
      let sobj' := { sobj with ptr := model, raw := some (clone model) }
      (aset smap model.dkey sobj', sobj')

/-- Query form of `isGlobalListed` / `isSessionListed` (`context_cache.go`):
an absent flag reads as `false`. -/
def isListed (listed : Option Bool) : Bool := listed.getD false

/-- Store form of `isGlobalListed` / `isSessionListed`: the flag is simply
overwritten with the given status. -/
def markListed (_listed : Option Bool) (status : Bool) : Option Bool := some status

/-- `globalLock` of `context_cache.go` (lines 208–212): `LoadOrStore` a
fresh `WaitGroup` (counter 0) under the model key; the `Add(1)` is
performed only when the key was absent (`!loaded`), so an existing counter
is left untouched. -/
def globalLock (locks : List (String × Nat)) (key : String) : List (String × Nat) :=
  match alookup locks key with
  | none => aset locks key 1
  | some _ => locks

/-- `globalUnlock` of `context_cache.go`: `LoadAndDelete` the counter and,
when one was present, release it (`Done`); the entry is gone either way. -/
def globalUnlock (locks : List (String × Nat)) (key : String) : List (String × Nat) :=
  match alookup locks key with
  | none => locks
  | some _ => aremove locks key

/-- A remote-store interaction performed by a primitive. -/
inductive Effect where
  | remoteRead
  | remoteList
  | remoteCount
  | remoteMax
  | lockWait
  deriving DecidableEq, Repr

/-- `globalWait` of `context_cache.go`: when a lock counter is present the
caller blocks until it is released and then deletes the entry (recorded
here as a `lockWait` effect); otherwise a no-op. -/
def globalWait (locks : List (String × Nat)) (key : String) :
    List (String × Nat) × List Effect :=
  match alookup locks key with
  | none => (locks, [])
  | some _ => (aremove locks key, [.lockWait])

/-- The cache-layer state, projected onto one model key and one session:
the model's global inner map (`none` when never created), the model's
global listed flag, the session's inner map for the model, the session
listed flag, the lock counters (still keyed by model key) and the
increment counters (keyed by `modelKey_column`). -/
structure CacheState where
  global : Option (List (String × GModel))
  globalListed : Option Bool
  session : Option (List (String × SObj))
  sessionListed : Option Bool
  locks : List (String × Nat)
  incres : List (String × Int)

/-- `ModelMeta` flags consumed by the CRUD primitives, together with the
reflected primary-key column name (`meta.fields.pk.column`, absent when the
type has no primary key). -/
structure Meta where
  cache : Bool
  writable : Bool
  pk : Option String := none
  deriving DecidableEq, Repr

/-- One element of the `writableAndCond` variadic argument list of `Read` /
`List`: a boolean, a condition, or an argument of any other type (which the
source only logs about). -/
inductive WArg where
  | wbool (b : Bool)
  | wcond (c : Cond)
  | wbad

/-- The argument-parsing loop shared by `Read` and `List`: `writable`
defaults to `meta.writable`, the last boolean and the last condition win,
other arguments are ignored (logged). -/
def parseArgs (metaWritable : Bool) (args : List WArg) : Bool × Option Cond :=
  args.foldl
    (fun acc a =>
      match a with
      | .wbool b => (b, acc.2)
      | .wcond c => (acc.1, some c)
      | .wbad => acc)
    (metaWritable, none)

end XOrm

namespace XOrm

/-! ### `Read` (`context_read.go`, lines 22–183)

The remote tier is a parameter `remote : Option Cond → Option GModel`:
`model.Read(cond)` either fails (`none`) or succeeds, in which case the
model instance afterwards holds the returned row (`some row`, already
validated by the ORM layer). -/

/-- Exact lookup, remote tier: wait on the model's lock, call
`model.Read(nil)`; on success put a clone into the global tier (when
caching) and the live instance into the session tier. -/
def readExactRemote (meta : Meta) (model : GModel)
    (remote : Option Cond → Option GModel) (st : CacheState) :
    GModel × CacheState × List Effect :=
  let lw := globalWait st.locks model.mkey
  let stw : CacheState := { st with locks := lw.1 }
  match remote none with
  | some m0 =>
    let g' := if meta.cache then (setGlobalCache stw.global (clone m0)).1 else stw.global
    let sm := setSessionCache stw.session m0
    (m0, { stw with global := g', session := some sm.1 }, lw.2 ++ [.remoteRead])
  | none => (model, stw, lw.2 ++ [.remoteRead])

/-- Exact lookup, global tier (entered only when caching): a hit that is
soft-deleted invalidates and returns the model; a valid hit is cloned into
the session tier, marked with the write state, and returned. -/
def readExactGlobal (meta : Meta) (writable : Bool) (model : GModel)
    (remote : Option Cond → Option GModel) (st : CacheState) :
    GModel × CacheState × List Effect :=
  if meta.cache then
    match alookup (st.global.getD []) model.dkey with
    | some gobj =>
      if ¬gobj.valid then ({ model with valid := false }, st, [])
      else
        let m0 := clone gobj
        let sm := setSessionCache st.session m0
        let smap :=
          aupdate sm.1 m0.dkey (fun s => { s with write := isWritable s.write (some writable) })
        (m0, { st with session := some smap }, [])
    | none => readExactRemote meta model remote st
  else readExactRemote meta model remote st

/-- Exact lookup (no condition): session tier, then global tier (when
caching), then remote. -/
def readExact (meta : Meta) (writable : Bool) (model : GModel)
    (remote : Option Cond → Option GModel) (st : CacheState) :
    GModel × CacheState × List Effect :=
  match alookup (st.session.getD []) model.dkey with
  | some sobj =>
    if ¬sobj.ptr.valid then ({ model with valid := false }, st, [])
    else
      let smap :=
        aupdate (st.session.getD []) model.dkey
          (fun s => { s with write := isWritable s.write (some writable) })
      (sobj.ptr, { st with session := some smap }, [])
  | none => readExactGlobal meta writable model remote st

/-- Fuzzy lookup over a session-listed map: scan in order, skip invalid
entries, take the first match and mark its write state. -/
def readFuzzySessionScan (writable : Bool) (cond : Cond) :
    List (String × SObj) → Option GModel × List (String × SObj)
  | [] => (none, [])
  | (k, s) :: t =>
    if s.ptr.valid && cond s.ptr then
      (some s.ptr, (k, { s with write := isWritable s.write (some writable) }) :: t)
    else
      let r := readFuzzySessionScan writable cond t
      (r.1, (k, s) :: r.2)

/-- Fuzzy lookup over a global-listed map: first valid match. -/
def readFuzzyGlobalScan (cond : Cond) : List (String × GModel) → Option GModel
  | [] => none
  | (_, g) :: t => if g.valid && cond g then some g else readFuzzyGlobalScan cond t

/-- Tail of the fuzzy remote reconcile: put the current model into the
session tier and return it (`context_read.go` line 178). -/
def readFuzzyRemoteFinish (mcur : GModel) (st : CacheState) (effs : List Effect) :
    GModel × CacheState × List Effect :=
  let sm := setSessionCache st.session mcur
  (mcur, { st with session := some sm.1 }, effs)

/-- Fuzzy remote reconcile, global-tier step (`context_read.go` lines
155–177): entered only when caching and only when the model's global map
exists; a soft-deleted hit invalidates and returns; a valid hit replaces
the result when the session did not already win; a miss write-through
clones the current model into the global tier. -/
def readFuzzyRemoteGlobal (meta : Meta) (writable : Bool) (mcur : GModel)
    (isSCache : Bool) (st : CacheState) (effs : List Effect) :
    GModel × CacheState × List Effect :=
  if meta.cache then
    match st.global with
    | some gmap =>
      match alookup gmap mcur.dkey with
      | some gobj =>
        if ¬gobj.valid then ({ mcur with valid := false }, st, effs)
        else if ¬isSCache then
          let m0 := clone gobj
          let sm := setSessionCache st.session m0
          let smap :=
            aupdate sm.1 m0.dkey (fun s => { s with write := isWritable s.write (some writable) })
          readFuzzyRemoteFinish m0 { st with session := some smap } effs
        else readFuzzyRemoteFinish mcur st effs
      | none =>
        readFuzzyRemoteFinish mcur
          { st with global := (setGlobalCache st.global (clone mcur)).1 } effs
    | none => readFuzzyRemoteFinish mcur st effs
  else readFuzzyRemoteFinish mcur st effs

/-- Fuzzy lookup, remote tier (`context_read.go` lines 126–180): wait on
the lock, `model.Read(cond)`, then reconcile the returned row against the
session tier (a deleted session entry wins and invalidates; a valid
matching session entry shadows the remote row; a valid non-matching one is
overwritten with a logged warning) and the global tier. -/
def readFuzzyRemote (meta : Meta) (writable : Bool) (cond : Cond) (model : GModel)
    (remote : Option Cond → Option GModel) (st : CacheState) :
    GModel × CacheState × List Effect :=
  let lw := globalWait st.locks model.mkey
  let stw : CacheState := { st with locks := lw.1 }
  let effs := lw.2 ++ [.remoteRead]
  match remote (some cond) with
  | none => (model, stw, effs)
  | some m0 =>
    match alookup (stw.session.getD []) m0.dkey with
    | some sobj =>
      if ¬sobj.ptr.valid then ({ m0 with valid := false }, stw, effs)
      else if cond m0 then
        let smap :=
          aupdate (stw.session.getD []) m0.dkey
            (fun s => { s with write := isWritable s.write (some writable) })
        readFuzzyRemoteGlobal meta writable sobj.ptr true
          { stw with session := some smap } effs
      else readFuzzyRemoteGlobal meta writable m0 false stw effs
    | none => readFuzzyRemoteGlobal meta writable m0 false stw effs

/-- `Read` (`context_read.go` lines 22–183).  `ctx` is the result of the
context lookup for the current goroutine (`some writableFlag` when a
session is active — the flag itself is not consulted by `Read`). -/
def ReadOp (ctx : Option Bool) (meta : Option Meta) (args : List WArg)
    (model : GModel) (remote : Option Cond → Option GModel) (st : CacheState) :
    GModel × CacheState × List Effect :=
  match ctx with
  | none => (model, st, [])
  | some _ =>
    match meta with
    | none => (model, st, [])
    | some meta =>
      let wc := parseArgs meta.writable args
      match wc.2 with
      | none => readExact meta wc.1 model remote st
      | some cond =>
        if isListed st.sessionListed then
          match st.session with
          | some smap =>
            let r := readFuzzySessionScan wc.1 cond smap
            match r.1 with
            | some m0 => (m0, { st with session := some r.2 }, [])
            | none => (model, { st with session := some r.2 }, [])
          | none => (model, st, [])
        else if isListed st.globalListed then
          match readFuzzyGlobalScan cond (st.global.getD []) with
          | some g =>
            let m0 := clone g
            let sm := setSessionCache st.session m0
            let smap :=
              aupdate sm.1 m0.dkey
                (fun s => { s with write := isWritable s.write (some wc.1) })
            (m0, { st with session := some smap }, [])
          | none => (model, st, [])
        else readFuzzyRemote meta wc.1 cond model remote st

/-! ### `Count` (`context_read_test.go`, lines 218–261) -/

/-- `Count`: session-listed count, else global-listed count, else remote
count; invalid entries always excluded.  `Count` performs no context
lookup: its result depends only on the meta registration, the listed
flags, the caches and the remote answer. -/
def CountOp (meta : Option Meta) (cond : Option Cond) (st : CacheState)
    (remoteCount : Int) : Int × List Effect :=
  match meta with
  | none => (0, [])
  | some _ =>
    if isListed st.sessionListed then
      (((st.session.getD []).filter
        (fun p => p.2.ptr.valid && matchs cond p.2.ptr)).length, [])
    else if isListed st.globalListed then
      (((st.global.getD []).filter
        (fun p => p.2.valid && matchs cond p.2)).length, [])
    else (remoteCount, [.remoteCount])

/-! ### `Delete` (`context_delete.go`, lines 21–60) -/

/-- `Delete`: requires a context, a registered meta, a writable context and
a writable meta (each failure is a logged no-op).  Marks the model invalid,
marks the global entry invalid when caching, and marks the session entry
`delete`. -/
def DeleteOp (ctx : Option Bool) (meta : Option Meta) (model : GModel)
    (st : CacheState) : CacheState :=
  match ctx with
  | none => st
  | some ctxWritable =>
    match meta with
    | none => st
    | some meta =>
      if ¬ctxWritable then st
      else if ¬meta.writable then st
      else
        let model' : GModel := { model with valid := false }
        let g' :=
          if meta.cache then
            match st.global with
            | some gmap => some (aupdate gmap model'.dkey (fun g => { g with valid := false }))
            | none => none
          else st.global
        let sm := setSessionCache st.session model'
        let smap :=
          aupdate sm.1 model'.dkey
            (fun s => { s with delete := true, create := false, clear := none })
        { st with global := g', session := some smap }

/-! ### `Clear` (`src/unnamed/part_021`, lines 26–95) -/

/-- First pass of `Clear`: every session entry whose `ptr` matches the
condition has its `ptr` marked invalid; the keys of the matched entries are
collected. -/
def clearSessionPass (cond : Option Cond) :
    List (String × SObj) → List (String × SObj) × List String
  | [] => ([], [])
  | (k, s) :: t =>
    let r := clearSessionPass cond t
    if matchs cond s.ptr then
      ((k, { s with ptr := { s.ptr with valid := false } }) :: r.1, k :: r.2)
    else ((k, s) :: r.1, r.2)

/-- Second pass of `Clear` (caching only): every global entry matching the
condition is marked invalid; entries not already marked in the session pass
are cloned into the session tier and the clone's `ptr` is marked invalid. -/
def clearGlobalPass (cond : Option Cond) (marked : List String) :
    List (String × GModel) → Option (List (String × SObj)) →
    List (String × GModel) × Option (List (String × SObj))
  | [], sess => ([], sess)
  | (k, g) :: t, sess =>
    if matchs cond g then
      let sess' :=
        if marked.contains k then sess
        else
          let nobj := clone g
          let sm := setSessionCache sess nobj
          some (aupdate sm.1 nobj.dkey (fun s => { s with ptr := { s.ptr with valid := false } }))
      let r := clearGlobalPass cond marked t sess'
      ((k, { g with valid := false }) :: r.1, r.2)
    else
      let r := clearGlobalPass cond marked t sess
      ((k, g) :: r.1, r.2)

/-- Final step of `Clear`: put the (invalidated) model into the session
tier and mark the entry with the clearing condition (a missing condition is
recorded as the match-all `Cond()`). -/
def clearFinish (sess : Option (List (String × SObj))) (cond : Option Cond)
    (model' : GModel) : List (String × SObj) :=
  let sm := setSessionCache sess model'
  aupdate sm.1 model'.dkey
    (fun s =>
      { s with clear := some (cond.getD (fun _ => true)),
               create := false, delete := false })

/-- The body of `Clear` after the preamble guards: invalidate the matching
session entries, invalidate the matching global entries (cloning unmarked
ones into the session tier, when caching), then record the condition on the
synthetic session entry.  The listed flags are not touched. -/
def clearCore (meta : Meta) (cond : Option Cond) (model : GModel)
    (st : CacheState) : CacheState :=
  let model' : GModel := { model with valid := false }
  let p1 :=
    match st.session with
    | some smap => clearSessionPass cond smap
    | none => ([], [])
  let sess1 : Option (List (String × SObj)) :=
    match st.session with
    | some _ => some p1.1
    | none => none
  let p2 :=
    if meta.cache then
      match st.global with
      | some gmap =>
        let r := clearGlobalPass cond p1.2 gmap sess1
        (some r.1, r.2)
      | none => (none, sess1)
    else (st.global, sess1)
  { st with global := p2.1, session := some (clearFinish p2.2 cond model') }

/-- `Clear`: same preamble guards as `Delete` (each failure is a logged
no-op), then `clearCore`. -/
def ClearOp (ctx : Option Bool) (meta : Option Meta) (cond : Option Cond)
    (model : GModel) (st : CacheState) : CacheState :=
  match ctx with
  | none => st
  | some ctxWritable =>
    match meta with
    | none => st
    | some meta =>
      if ¬ctxWritable then st
      else if ¬meta.writable then st
      else clearCore meta cond model st

/-! ### `Incre` (`context_incre.go`, lines 24–92) -/

/-- One element of the `columnAndDelta` variadic argument list of
`Incre`. -/
inductive IArg where
  | istr (s : String)
  | iint (i : Int)
  | ibad

/-- The argument parsing of `Incre`: with one argument, a string names the
column and an integer is the delta; with two arguments, the first (when a
string) names the column and the second (when an integer) is the delta;
any other arity leaves the defaults. -/
def parseIncreArgs (args : List IArg) : Option String × Int :=
  match args with
  | [a] =>
    match a with
    | .istr s => (some s, 1)
    | .iint i => (none, i)
    | .ibad => (none, 1)
  | [a, b] =>
    let c := match a with | .istr s => some s | _ => none
    let d := match b with | .iint i => i | _ => 1
    (c, d)
  | _ => (none, 1)

/-- `Incre`: requires a context, a registered meta, a writable context and
a writable meta (each failure logs and returns `-1`).  Resolves the column
(falling back to the primary-key column, `meta.pk`), then fetch-and-adds
the counter under `modelKey_column`, initializing it from the remote
`Max(column) + delta` when absent. -/
def IncreOp (ctx : Option Bool) (meta : Option Meta) (model : GModel)
    (args : List IArg) (remoteMax : Int) (st : CacheState) :
    Int × CacheState × List Effect :=
  match ctx with
  | none => (-1, st, [])
  | some ctxWritable =>
    match meta with
    | none => (-1, st, [])
    | some meta =>
      if ¬ctxWritable then (-1, st, [])
      else if ¬meta.writable then (-1, st, [])
      else
        let pa := parseIncreArgs args
        let cname0 := pa.1.getD ""
        let cname := if cname0 = "" then meta.pk.getD "" else cname0
        if cname = "" then (0, st, [])
        else
          let increKey := model.mkey ++ "_" ++ cname
          match alookup st.incres increKey with
          | none =>
            let index := remoteMax + pa.2
            (index, { st with incres := aset st.incres increKey index }, [.remoteMax])
          | some v =>
            (v + pa.2, { st with incres := aset st.incres increKey (v + pa.2) }, [])

end XOrm

namespace XOrm

/-! ### `List` (`context_index.go`, lines 322–550)

The remote rows returned by `model.List(&frets, cond)` are a parameter.
The source's captured local map pointers (`scache`, `gcache`) are embedded
by the flags `s0p` / `g0p`: when the model's inner map did not exist at
capture time the local pointer stays `nil`, so in-loop lookups through it
fail even though inserts (which go through the process-wide registry)
succeed.  The removal of soft-deleted rows (`invalids` index filtering in
the source) is embedded by not appending the removed rows in the first
place, which yields the same list. -/

/-- Session-listed branch of `List`: scan the session map, skip invalid
entries, mark the write state of every match and collect its `ptr`. -/
def listSessionScan (writable : Bool) (cond : Option Cond) :
    List (String × SObj) → List (String × SObj) × List GModel
  | [] => ([], [])
  | (k, s) :: t =>
    if s.ptr.valid && matchs cond s.ptr then
      let r := listSessionScan writable cond t
      ((k, { s with write := isWritable s.write (some writable) }) :: r.1, s.ptr :: r.2)
    else
      let r := listSessionScan writable cond t
      ((k, s) :: r.1, r.2)

/-- Global-listed branch of `List`: scan the global map, skip invalid
entries; a match is cloned, but an existing session entry for the same
data key wins; the (found or inserted) session entry's write state is
marked. -/
def listGlobalScan (writable : Bool) (cond : Option Cond) (s0p : Bool) :
    List (String × GModel) → Option (List (String × SObj)) →
    Option (List (String × SObj)) × List GModel
  | [], sess => (sess, [])
  | (_, g) :: t, sess =>
    if g.valid && matchs cond g then
      let ele := clone g
      let sEntry := if s0p then alookup (sess.getD []) ele.dkey else none
      match sEntry with
      | some s =>
        let smap :=
          aupdate (sess.getD []) ele.dkey
            (fun x => { x with write := isWritable x.write (some writable) })
        let r := listGlobalScan writable cond s0p t (some smap)
        (r.1, s.ptr :: r.2)
      | none =>
        let sm := setSessionCache sess ele
        let smap :=
          aupdate sm.1 ele.dkey (fun x => { x with write := isWritable x.write (some writable) })
        let r := listGlobalScan writable cond s0p t (some smap)
        (r.1, ele :: r.2)
    else
      let r := listGlobalScan writable cond s0p t sess
      (r.1, r.2)

/-- Reconcile of one remote row (`context_index.go` lines 416–471): a
session entry wins (a deleted one removes the row); otherwise a global
entry wins (deleted removes, valid is cloned into the session tier);
otherwise the row is written through to the global tier (when caching) and
put into the session tier.  Returns the updated state and the surviving
row, `none` when the row was removed. -/
def listRemoteRow (meta : Meta) (writable : Bool) (s0p g0p : Bool)
    (st : CacheState) (obj : GModel) : CacheState × Option GModel :=
  let name := obj.dkey
  let gobj := if meta.cache && g0p then alookup (st.global.getD []) name else none
  let sobj := if s0p then alookup (st.session.getD []) name else none
  match sobj with
  | some s =>
    if ¬s.ptr.valid then (st, none)
    else (st, some s.ptr)
  | none =>
    match gobj with
    | some g =>
      if ¬g.valid then (st, none)
      else
        let nobj := clone g
        let sm := setSessionCache st.session nobj
        let smap :=
          aupdate sm.1 nobj.dkey (fun s => { s with write := isWritable s.write (some writable) })
        ({ st with session := some smap }, some nobj)
    | none =>
      let g' := if meta.cache then (setGlobalCache st.global (clone obj)).1 else st.global
      let sm := setSessionCache st.session obj
      let smap :=
        aupdate sm.1 obj.dkey (fun s => { s with write := isWritable s.write (some writable) })
      ({ st with global := g', session := some smap }, some obj)

/-- The reconcile loop of the remote branch of `List`: rows are processed
in order; every surviving row's data key is recorded in `valids` and the
row appended to the result. -/
def listReconcile (meta : Meta) (writable : Bool) (s0p g0p : Bool) :
    List GModel → CacheState → List String → List GModel →
    CacheState × List String × List GModel
  | [], st, valids, acc => (st, valids, acc)
  | obj :: t, st, valids, acc =>
    let r := listRemoteRow meta writable s0p g0p st obj
    match r.2 with
    | none => listReconcile meta writable s0p g0p t r.1 valids acc
    | some x => listReconcile meta writable s0p g0p t r.1 (valids ++ [obj.dkey]) (acc ++ [x])

/-- Session supplement of the remote branch (`context_index.go` lines
487–507): every valid session entry whose key the remote did not return
and whose `ptr` matches the condition is appended to the result. -/
def listSupplementSession (cond : Option Cond) :
    List (String × SObj) → List String → List GModel → List String × List GModel
  | [], valids, frets => (valids, frets)
  | (k, s) :: t, valids, frets =>
    if s.ptr.valid = false then listSupplementSession cond t valids frets
    else if (!(valids.contains k) && matchs cond s.ptr) = true then
      listSupplementSession cond t (valids ++ [k]) (frets ++ [s.ptr])
    else listSupplementSession cond t valids frets

/-- Global supplement, collection pass (`context_index.go` lines 512–522):
valid global entries whose key is neither among the remote names nor among
the session supplements, and which match the condition. -/
def listCollectAdded (cond : Option Cond) (valids : List String)
    (gmap : List (String × GModel)) : List (String × GModel) :=
  gmap.filter (fun p => p.2.valid && !(valids.contains p.1) && matchs cond p.2)

/-- Global supplement, append pass (`context_index.go` lines 524–534):
each collected entry is cloned into the session tier, its write state
marked, and the clone appended to the result. -/
def listAppendAdded (writable : Bool) :
    List (String × GModel) → Option (List (String × SObj)) → List GModel →
    Option (List (String × SObj)) × List GModel
  | [], sess, frets => (sess, frets)
  | (_, g) :: t, sess, frets =>
    let nobj := clone g
    let sm := setSessionCache sess nobj
    let smap :=
      aupdate sm.1 nobj.dkey (fun s => { s with write := isWritable s.write (some writable) })
    listAppendAdded writable t (some smap) (frets ++ [nobj])

/-- The reconcile-and-supplement block of the remote branch of `List`
(entered only when the remote returned at least one row): reconcile each
row against the captured tiers, then supplement from the session tier, then
from the global tier. -/
def listRemoteCore (meta : Meta) (writable : Bool) (cond : Option Cond)
    (remoteRows : List GModel) (st : CacheState) : List GModel × CacheState :=
  let s0p := st.session.isSome
  let g0p := st.global.isSome
  let rc := listReconcile meta writable s0p g0p remoteRows st [] []
  let sup1 :=
    if s0p then listSupplementSession cond (rc.1.session.getD []) rc.2.1 rc.2.2
    else (rc.2.1, rc.2.2)
  let sup2 :=
    if meta.cache && g0p then
      listAppendAdded writable (listCollectAdded cond sup1.1 (rc.1.global.getD []))
        rc.1.session sup1.2
    else (rc.1.session, sup1.2)
  (sup2.2, { rc.1 with session := sup2.1 })

/-- The remote branch of `List`.  Note the guard of the source: the whole
reconcile-and-supplement block runs only when the remote returned at least
one row (`if len(frets) > 0`). -/
def listRemote (meta : Meta) (writable : Bool) (cond : Option Cond)
    (model : GModel) (remoteRows : List GModel) (st : CacheState) :
    List GModel × CacheState × List Effect :=
  let lw := globalWait st.locks model.mkey
  let stw : CacheState := { st with locks := lw.1 }
  let effs := lw.2 ++ [.remoteList]
  if remoteRows.isEmpty then (remoteRows, stw, effs)
  else
    let core := listRemoteCore meta writable cond remoteRows stw
    (core.1, core.2, effs)

/-- `List` (`context_index.go` lines 322–550): session-listed scan, else
global-listed scan, else remote reconcile; on success of a full (no
condition) listing the missing listed flags are set. -/
def ListOp (ctx : Option Bool) (meta : Option Meta) (args : List WArg)
    (model : GModel) (remoteRows : List GModel) (st : CacheState) :
    List GModel × CacheState × List Effect :=
  match ctx with
  | none => ([], st, [])
  | some _ =>
    match meta with
    | none => ([], st, [])
    | some meta =>
      let wc := parseArgs meta.writable args
      let slisted := isListed st.sessionListed
      let glisted := isListed st.globalListed
      let core : List GModel × CacheState × List Effect :=
        if slisted then
          match st.session with
          | some smap =>
            let r := listSessionScan wc.1 wc.2 smap
            (r.2, { st with session := some r.1 }, [])
          | none => ([], st, [])
        else if glisted then
          match st.global with
          | some gmap =>
            let r := listGlobalScan wc.1 wc.2 st.session.isSome gmap st.session
            (r.2, { st with session := r.1 }, [])
          | none => ([], st, [])
        else listRemote meta wc.1 wc.2 model remoteRows st
      let st1 := core.2.1
      let st2 :=
        if wc.2.isNone then
          { st1 with
            sessionListed := if ¬slisted then some true else st1.sessionListed,
            globalListed := if ¬glisted && meta.cache then some true else st1.globalListed }
        else st1
      (core.1, st2, core.2.2)

end XOrm

namespace XOrm.GenB

/-! ### `Write` and its cache layer (`context_write.go`;
`src/unnamed/part_005`, lines 452–592)

`context_write.go` belongs to the code generation in which the global tier
stores `globalObject` wrappers (a model pointer plus a deletion flag) and
the session entry carries boolean `clear`/`cond` fields; its cache setters
are the ones of `src/unnamed/part_005` (lines 523 and 558).  Only what
`Write` touches is embedded. -/

/-- `modelInfo` registration flags of this generation. -/
structure MetaB where
  cache : Bool
  persist : Bool
  writable : Bool
  deriving DecidableEq, Repr

/-- `globalObject`: global-tier entry of this generation. -/
structure GObjB where
  ptr : GModel
  delete : Bool
  deriving DecidableEq, Repr

/-- `sessionObject` of this generation (`src/unnamed/part_005`, lines
458–467). -/
structure SObjB where
  raw : Option GModel
  ptr : GModel
  create : Bool
  delete : Bool
  clear : Bool
  cond : Option Cond
  writable : Nat
  model : Option MetaB

/-- The global and session tier of this generation, projected as before
onto one model key and one session. -/
structure StateB where
  global : Option (List (String × GObjB))
  session : Option (List (String × SObjB))

/-- `setGlobalCache` of this generation (`src/unnamed/part_005`, line 523):
creates the inner map when absent; a fresh data key installs a new
`globalObject` holding the instance; an existing entry holding a different
instance has its `ptr` re-assigned (an overwrite error is logged when the
entry was not marked deleted); the `delete` flag itself is not touched
here.  Returns the map and the key of the entry the caller received a
pointer to. -/
def setGlobalCacheB (global : Option (List (String × GObjB))) (model : GModel) :
    List (String × GObjB) × String :=
  let gmap := global.getD []
  match alookup gmap model.dkey with
  | none => (aset gmap model.dkey { ptr := model, delete := false }, model.dkey)
  | some gobj =>
    if gobj.ptr = model then (gmap, model.dkey)
    else (aset gmap model.dkey { gobj with ptr := model }, model.dkey)

/-- `setSessionCache` of this generation (`src/unnamed/part_005`, line
558): creates the entry when absent (storing the instance and a clone as
`raw`), re-assigns `ptr`/`raw` when a different instance is passed, and
records the meta on the entry. -/
def setSessionCacheB (session : Option (List (String × SObjB))) (model : GModel)
    (meta : MetaB) : List (String × SObjB) × String :=
  let smap := session.getD []
  match alookup smap model.dkey with
  | none =>
    let sobj : SObjB :=
      { raw := some (clone model), ptr := model, create := false, delete := false,
        clear := false, cond := none, writable := 0, model := some meta }
    (aset smap model.dkey sobj, model.dkey)
  | some sobj =>
    let sobj1 :=
      if sobj.ptr = model then sobj
      else { sobj with ptr := model, raw := some (clone model) }
    (aset smap model.dkey { sobj1 with model := some meta }, model.dkey)

/-- `Write` (`context_write.go`, lines 17–33): after the meta lookup (a
missing registration is a logged no-op) the model is forced valid, a clone
is written through to the global tier with its delete marker cleared (when
caching), and the live instance is put into the session tier with
`create := true` and the delete/clear markers cleared.  `Write` performs
no context lookup and consults neither `ctx.writable` nor
`meta.writable`. -/
def WriteOp (meta : Option MetaB) (model : GModel) (st : StateB) : StateB :=
  match meta with
  | none => st
  | some meta =>
    let model' : GModel := { model with valid := true }
    let st1 : StateB :=
      if meta.cache then
        let gm := setGlobalCacheB st.global (clone model')
        { st with global := some (aupdate gm.1 gm.2 (fun g => { g with delete := false })) }
      else st
    let sm := setSessionCacheB st1.session model' meta
    { st1 with
      session := some (aupdate sm.1 sm.2
        (fun s => { s with create := true, delete := false, clear := false })) }

end XOrm.GenB

namespace XOrm

/-! ### Commit batch replay (`src/unnamed/part_014`, lines 255–291)

`commitBatch.push` handles the batch's session objects in three sequential
loops; `commitBatch.handle` dispatches each object to the remote call
named by its markers.  We embed the replay as the ordered list of
(object, dispatched action) events that `push` produces. -/

/-- A session object as seen by the commit pipeline (the `ptr != nil`
guard of the third loop is meaningful here, hence the `Option`). -/
structure CObj where
  ptr : Option GModel
  create : Bool
  delete : Bool
  clear : Option Cond

/-- The remote call `commitBatch.handle` dispatches to, in the order of
its `if` chain: `create` → `Write`, else `delete` → `Delete`, else
`clear` → `Clear(cond)`, else `Write` (update). -/
inductive CommitAction where
  | writeCreate
  | deleteAct
  | clearAct
  | writeUpdate
  deriving DecidableEq, Repr

/-- The dispatch of `commitBatch.handle`. -/
def handleAction (o : CObj) : CommitAction :=
  if o.create then .writeCreate
  else if o.delete then .deleteAct
  else if o.clear.isSome then .clearAct
  else .writeUpdate

/-- The event sequence of `commitBatch.push`: first every object with
`clear ≠ nil`, then every object with `delete`, then every object with a
live pointer and neither marker; each handled through
`commitBatch.handle`. -/
def pushEvents (objects : List CObj) : List (CObj × CommitAction) :=
  (objects.filter (fun o => o.clear.isSome)).map (fun o => (o, handleAction o))
    ++ (objects.filter (fun o => o.delete)).map (fun o => (o, handleAction o))
    ++ (objects.filter (fun o => o.ptr.isSome && !o.delete && !o.clear.isSome)).map
        (fun o => (o, handleAction o))

end XOrm

namespace XOrm

/-! ## Supporting lemmas -/

theorem alookup_aset {α : Type} (l : List (String × α)) (k : String) (v : α) :
    alookup (aset l k v) k = some v := by
  induction l with
  | nil => simp [aset, alookup]
  | cons h t ih =>
    by_cases hk : h.1 = k
    · simp [aset, hk, alookup]
    · simpa [aset, hk, alookup] using ih

theorem alookup_aupdate {α : Type} (l : List (String × α)) (k : String) (f : α → α) :
    alookup (aupdate l k f) k = (alookup l k).map f := by
  induction l with
  | nil => simp [aupdate, alookup]
  | cons h t ih =>
    by_cases hk : h.1 = k
    · simp [aupdate, hk, alookup]
    · simpa [aupdate, hk, alookup] using ih

/-- The write-state update of `isWritable` never decreases the state. -/
theorem isWritable_le (w : Nat) (s : Option Bool) : w ≤ isWritable w s := by
  cases s with
  | none => exact le_refl w
  | some b =>
    match w, b with
    | 0, true => decide
    | 0, false => decide
    | 1, true => decide
    | 1, false => decide
    | n + 2, true => exact le_refl _
    | n + 2, false => exact le_refl _

/-! ## The claims -/

/-- C9 — The session entry write state is monotone over the lattice
unmarked (0) → readOnly (1) → readWrite (2): a single `isWritable` call
never decreases it, any sequence of calls never decreases it, unmarked can
be set to either state, readOnly can only be upgraded to readWrite, and
readWrite never changes. -/
theorem c9_write_state_monotone :
    (∀ (w : Nat) (s : Option Bool), w ≤ isWritable w s) ∧
    (∀ (w : Nat) (l : List Bool),
      w ≤ l.foldl (fun x b => isWritable x (some b)) w) ∧
    (isWritable 0 (some false) = 1 ∧ isWritable 0 (some true) = 2) ∧
    (isWritable 1 (some true) = 2 ∧ isWritable 1 (some false) = 1) ∧
    (∀ s, isWritable 2 s = 2) := by
  refine ⟨isWritable_le, ?_, ⟨rfl, rfl⟩, ⟨rfl, rfl⟩, ?_⟩
  · intro w l
    induction l generalizing w with
    | nil => exact le_refl w
    | cons b t ih =>
      exact le_trans (isWritable_le w (some b)) (ih (isWritable w (some b)))
  · intro s
    cases s with
    | none => rfl
    | some b => cases b <;> rfl

/-- C7 (counterexample) — Two `globalLock` calls on an initially absent key
leave the counter at 1, not 2: the claimed per-call increment does not
happen. -/
theorem c7_counterexample :
    alookup (globalLock (globalLock [] "alias_table") "alias_table") "alias_table"
      = some 1 ∧ (1 : Nat) ≠ 2 := by
  constructor
  · rfl
  · decide

/-- C7 (amended) — `globalLock` installs a counter at 1 when the key is
absent and otherwise leaves the map unchanged, so after any positive number
of lock calls without an intervening unlock the counter is 1. -/
theorem c7_lock_install_or_noop (locks : List (String × Nat)) (key : String) :
    (alookup locks key = none → globalLock locks key = aset locks key 1) ∧
    (∀ n, alookup locks key = some n → globalLock locks key = locks) ∧
    (∀ m : Nat,
      alookup (Nat.iterate (fun l => globalLock l key) (m + 1) []) key = some 1) := by
  have noop : ∀ (l : List (String × Nat)) (n : Nat),
      alookup l key = some n → globalLock l key = l := by
    intro l n h; unfold globalLock; rw [h]
  refine ⟨?_, ?_, ?_⟩
  · intro h; unfold globalLock; rw [h]
  · exact fun n h => noop locks n h
  · intro m
    induction m with
    | zero =>
      show alookup (globalLock [] key) key = some 1
      unfold globalLock
      simp [alookup, aset]
    | succ n ih =>
      rw [Function.iterate_succ_apply']
      rw [noop _ 1 ih]
      exact ih

/-- C7 (witness) — the amended behaviour at concrete inputs: an existing
counter is untouched, and two lock calls from scratch leave count 1. -/
theorem c7_witness :
    globalLock [("k", 3)] "k" = [("k", 3)] ∧
    alookup (Nat.iterate (fun l => globalLock l "k") 2 []) "k" = some 1 :=
  ⟨(c7_lock_install_or_noop [("k", 3)] "k").2.1 3 (by rfl),
   (c7_lock_install_or_noop [("k", 3)] "k").2.2 1⟩

/-- C4 — `setGlobalCache` on a data key that is already present keeps the
existing entry (the inner `LoadOrStore` never replaces): when the existing
entry is valid the overwrite log fires although the map still holds the old
instance, and when it is soft-deleted the call is silent and the map still
holds the old soft-deleted instance.  The claim that the entry afterwards
is the newly passed instance fails in both cases. -/
theorem c4_setGlobalCache_keeps_existing :
    (setGlobalCache
        (some [("a_t_1", { mkey := "a_t", dkey := "a_t_1", payload := 1, valid := true })])
        { mkey := "a_t", dkey := "a_t_1", payload := 2, valid := true }
      = (some [("a_t_1", { mkey := "a_t", dkey := "a_t_1", payload := 1, valid := true })],
          true)) ∧
    (setGlobalCache
        (some [("a_t_1", { mkey := "a_t", dkey := "a_t_1", payload := 1, valid := false })])
        { mkey := "a_t", dkey := "a_t_1", payload := 2, valid := true }
      = (some [("a_t_1", { mkey := "a_t", dkey := "a_t_1", payload := 1, valid := false })],
          false)) ∧
    ({ mkey := "a_t", dkey := "a_t_1", payload := 1, valid := true } : GModel)
      ≠ { mkey := "a_t", dkey := "a_t_1", payload := 2, valid := true } := by
  refine ⟨by decide, by decide, by decide⟩

/-- C6 — `handleComparisonOperator` on a float-typed field value: the float
branch converts both sides with `toInt64`, which fails on every float, so
the comparison is `false` for every float field, operator and operand; in
particular a float field holding 2.5 does not match `field > 1` although
2.5 > 1. -/
theorem c6_float_comparison_returns_false :
    (∀ (q : Rat) (op : String) (a : GoVal),
      handleFloatComparisonOperator (GoVal.vfloat64 q) op a = false) ∧
    (∀ (q : Rat) (op : String) (a : GoVal),
      handleFloatComparisonOperator (GoVal.vfloat32 q) op a = false) ∧
    handleComparisonOperator (GoVal.vfloat64 (5 / 2 : Rat)) "gt" (GoVal.vint 1) = false ∧
    ((5 / 2 : Rat) > 1) := by
  refine ⟨fun q op a => rfl, fun q op a => rfl, rfl, by norm_num⟩

/-- C10 — An `in` condition whose operand list is a `[]float32`: the first
evaluation answers through the float handler and caches the operands as a
`[]float64`; every subsequent evaluation probes the cache, type-asserts the
hit to `[]int64`, and panics (`Except.error`) instead of returning a
boolean. -/
theorem c10_float32_in_second_eval_panics (cvalue : GoVal) (l : List Rat) :
    handleInOperator cvalue (.float32s l) none
      = .ok (handleFloatInOperator cvalue l, some (.cfloats l)) ∧
    (∀ c, handleInOperator cvalue (.float32s l) (some (.cfloats c)) = .error ()) :=
  ⟨rfl, fun _ => rfl⟩

/-- C2 — `Write` of `context_write.go` performs no writable check at all:
with a read-only meta (and no session context consulted anywhere) it still
installs the instance into the global tier (delete marker cleared) and into
the session tier with `create := true`.  This contradicts the claim (and
the repository's own `TestContextWrite`, which expects both tiers unchanged
when not writable). -/
theorem c2_write_ignores_writable :
    (GenB.MetaB.writable { cache := true, persist := true, writable := false }) = false ∧
    ((alookup
        ((GenB.WriteOp (some { cache := true, persist := true, writable := false })
            { mkey := "a_t", dkey := "a_t_9", payload := 9, valid := false }
            { global := none, session := none }).global.getD [])
        "a_t_9").map (fun g => (g.ptr, g.delete))
      = some ({ mkey := "a_t", dkey := "a_t_9", payload := 9, valid := true }, false)) ∧
    ((alookup
        ((GenB.WriteOp (some { cache := true, persist := true, writable := false })
            { mkey := "a_t", dkey := "a_t_9", payload := 9, valid := false }
            { global := none, session := none }).session.getD [])
        "a_t_9").map (fun s => (s.ptr, s.create, s.delete)))
      = some ({ mkey := "a_t", dkey := "a_t_9", payload := 9, valid := true }, true, false) := by
  refine ⟨rfl, rfl, rfl⟩

/-- C8 — The batch replay of `commitBatch.push` is three phases in order:
the event sequence decomposes as clear-phase events, then delete-phase
events, then the remaining create/update events; every entry with
`clear ≠ nil` is handled in the first phase, every deleted entry in the
second, and every live unmarked entry in the third — so no delete is
applied before any clear, and no create/update before any delete. -/
theorem c8_push_three_phases (objects : List CObj) :
    ∃ l1 l2 l3,
      pushEvents objects = l1 ++ l2 ++ l3 ∧
      (∀ e ∈ l1, e.1.clear.isSome = true ∧ e.2 = handleAction e.1) ∧
      (∀ e ∈ l2, e.1.delete = true ∧ e.2 = handleAction e.1) ∧
      (∀ e ∈ l3, e.1.ptr.isSome = true ∧ e.1.delete = false ∧ e.1.clear.isSome = false) ∧
      (∀ o ∈ objects, o.clear.isSome = true → (o, handleAction o) ∈ l1) ∧
      (∀ o ∈ objects, o.delete = true → (o, handleAction o) ∈ l2) ∧
      (∀ o ∈ objects, o.ptr.isSome = true → o.delete = false → o.clear.isSome = false →
        (o, handleAction o) ∈ l3) := by
  refine ⟨_, _, _, rfl, ?_, ?_, ?_, ?_, ?_, ?_⟩
  · intro e he
    obtain ⟨o, ho, rfl⟩ := List.mem_map.mp he
    exact ⟨(List.mem_filter.mp ho).2, rfl⟩
  · intro e he
    obtain ⟨o, ho, rfl⟩ := List.mem_map.mp he
    exact ⟨(List.mem_filter.mp ho).2, rfl⟩
  · intro e he
    obtain ⟨o, ho, rfl⟩ := List.mem_map.mp he
    have h := (List.mem_filter.mp ho).2
    simp only [Bool.and_eq_true, Bool.not_eq_true'] at h
    exact ⟨h.1.1, h.1.2, h.2⟩
  · intro o ho hc
    exact List.mem_map_of_mem _ (List.mem_filter.mpr ⟨ho, hc⟩)
  · intro o ho hd
    exact List.mem_map_of_mem _ (List.mem_filter.mpr ⟨ho, hd⟩)
  · intro o ho hp hd hc
    refine List.mem_map_of_mem _ (List.mem_filter.mpr ⟨ho, ?_⟩)
    simp [hp, hd, hc]

/-- A batch object marked for clearing, used to witness C8. -/
def sampleClearObj : CObj :=
  { ptr := some { mkey := "a_t", dkey := "a_t_1", payload := 1, valid := false },
    create := false, delete := false, clear := some (fun _ => true) }

/-- A batch object marked for deletion, used to witness C8. -/
def sampleDeleteObj : CObj :=
  { ptr := some { mkey := "a_t", dkey := "a_t_2", payload := 2, valid := false },
    create := false, delete := true, clear := none }

/-- C8 (witness) — in a concrete two-object batch the clear entry is
replayed (as a `Clear` dispatch) in the event sequence. -/
theorem c8_witness :
    (sampleClearObj, CommitAction.clearAct) ∈ pushEvents [sampleClearObj, sampleDeleteObj] := by
  obtain ⟨l1, l2, l3, hpush, -, -, -, h1, -, -⟩ :=
    c8_push_three_phases [sampleClearObj, sampleDeleteObj]
  have hm := h1 sampleClearObj (List.mem_cons_self _ _) rfl
  rw [hpush]
  exact List.mem_append_left _ (List.mem_append_left _ hm)

/-- C5 (counterexample) — `Clear` of `src/unnamed/part_021` does not touch
the listed flags: on a state in which both flags are set they are still set
after `Clear` (the claim says both are false afterwards). -/
theorem c5_counterexample :
    isListed (ClearOp (some true) (some { cache := true, writable := true }) none
        { mkey := "a_t", dkey := "a_t_1", payload := 1, valid := true }
        { global := some [("a_t_1", { mkey := "a_t", dkey := "a_t_1", payload := 1, valid := true })],
          globalListed := some true,
          session := some [("a_t_1",
            { raw := none,
              ptr := { mkey := "a_t", dkey := "a_t_1", payload := 1, valid := true },
              write := 0, create := false, delete := false, clear := none })],
          sessionListed := some true, locks := [], incres := [] }).sessionListed = true ∧
    isListed (ClearOp (some true) (some { cache := true, writable := true }) none
        { mkey := "a_t", dkey := "a_t_1", payload := 1, valid := true }
        { global := some [("a_t_1", { mkey := "a_t", dkey := "a_t_1", payload := 1, valid := true })],
          globalListed := some true,
          session := some [("a_t_1",
            { raw := none,
              ptr := { mkey := "a_t", dkey := "a_t_1", payload := 1, valid := true },
              write := 0, create := false, delete := false, clear := none })],
          sessionListed := some true, locks := [], incres := [] }).globalListed = true := by
  exact ⟨rfl, rfl⟩

/-- `setSessionCache` always leaves an entry under the model's data key. -/
theorem setSessionCache_lookup (sess : Option (List (String × SObj))) (m : GModel) :
    ∃ s, alookup (setSessionCache sess m).1 m.dkey = some s := by
  unfold setSessionCache
  cases h : alookup (sess.getD []) m.dkey with
  | none =>
    refine ⟨{ raw := some (clone m), ptr := m, write := 0, create := false,
              delete := false, clear := none }, ?_⟩
    simp [h, alookup_aset]
  | some sobj =>
    by_cases he : sobj.ptr = m
    · exact ⟨sobj, by simp [h, he]⟩
    · refine ⟨{ sobj with ptr := m, raw := some (clone m) }, ?_⟩
      simp [h, he, alookup_aset]

/-- `clearFinish` leaves the synthetic clear entry under the model's data
key. -/
theorem clearFinish_lookup (sess : Option (List (String × SObj))) (cond : Option Cond)
    (m' : GModel) :
    ∃ s, alookup (clearFinish sess cond m') m'.dkey = some s ∧
      s.clear.isSome = true ∧ s.create = false ∧ s.delete = false := by
  obtain ⟨s0, hs0⟩ := setSessionCache_lookup sess m'
  refine ⟨{ s0 with
              clear := some (cond.getD (fun _ => true))
              create := false
              delete := false }, ?_, rfl, rfl, rfl⟩
  unfold clearFinish
  rw [alookup_aupdate, hs0]
  rfl

/-- C5 (amended) — `Clear` leaves the session and global listed flags
exactly as they were (instead of clearing a stale full-set claim it relies
on having marked the matching entries invalid); when the preamble guards
pass it does record the condition on the synthetic session entry
(`clear ≠ none`, `create = false`, `delete = false`). -/
theorem c5_clear_preserves_listed_flags (ctx : Option Bool) (meta : Option Meta)
    (cond : Option Cond) (model : GModel) (st : CacheState) :
    (ClearOp ctx meta cond model st).sessionListed = st.sessionListed ∧
    (ClearOp ctx meta cond model st).globalListed = st.globalListed ∧
    (∀ mt, ctx = some true → meta = some mt → mt.writable = true →
      ∃ s, alookup ((ClearOp ctx meta cond model st).session.getD []) model.dkey = some s ∧
        s.clear.isSome = true ∧ s.create = false ∧ s.delete = false) := by
  refine ⟨?_, ?_, ?_⟩
  · cases ctx with
    | none => rfl
    | some cw =>
      cases meta with
      | none => rfl
      | some mt =>
        by_cases hcw : cw = true
        · by_cases hmw : mt.writable = true
          · simp [ClearOp, hcw, hmw, clearCore]
          · simp [ClearOp, hcw, hmw]
        · simp [ClearOp, hcw]
  · cases ctx with
    | none => rfl
    | some cw =>
      cases meta with
      | none => rfl
      | some mt =>
        by_cases hcw : cw = true
        · by_cases hmw : mt.writable = true
          · simp [ClearOp, hcw, hmw, clearCore]
          · simp [ClearOp, hcw, hmw]
        · simp [ClearOp, hcw]
  · intro mt hc hm hw
    subst hc; subst hm
    have hred : ClearOp (some true) (some mt) cond model st = clearCore mt cond model st := by
      simp [ClearOp, hw]
    rw [hred]
    exact clearFinish_lookup _ cond { model with valid := false }

/-- C5 (witness) — the amended behaviour at a concrete input: flags are
untouched and the synthetic clear entry is present. -/
theorem c5_witness :
    (ClearOp (some true) (some { cache := false, writable := true }) none
        { mkey := "a_t", dkey := "a_t_3", payload := 3, valid := true }
        { global := none, globalListed := some true, session := none,
          sessionListed := some false, locks := [], incres := [] }).sessionListed
      = some false ∧
    (∃ s, alookup ((ClearOp (some true) (some { cache := false, writable := true }) none
        { mkey := "a_t", dkey := "a_t_3", payload := 3, valid := true }
        { global := none, globalListed := some true, session := none,
          sessionListed := some false, locks := [], incres := [] }).session.getD [])
        "a_t_3" = some s ∧
      s.clear.isSome = true ∧ s.create = false ∧ s.delete = false) :=
  ⟨(c5_clear_preserves_listed_flags (some true)
      (some { cache := false, writable := true }) none
      { mkey := "a_t", dkey := "a_t_3", payload := 3, valid := true }
      { global := none, globalListed := some true, session := none,
        sessionListed := some false, locks := [], incres := [] }).1,
   (c5_clear_preserves_listed_flags (some true)
      (some { cache := false, writable := true }) none
      { mkey := "a_t", dkey := "a_t_3", payload := 3, valid := true }
      { global := none, globalListed := some true, session := none,
        sessionListed := some false, locks := [], incres := [] }).2.2
      { cache := false, writable := true } rfl rfl rfl⟩

/-- C3 (counterexample) — `Count` performs no session-context lookup at
all (the embedded `CountOp` mirrors the source, which never consults the
context registry): on a goroutine with no context, a registered meta and no
listed flags, `Count` calls the remote `Count` and returns its result —
here 5, not 0. -/
theorem c3_counterexample :
    CountOp (some { cache := true, writable := true }) none
      { global := none, globalListed := none, session := none,
        sessionListed := none, locks := [], incres := [] } 5
      = (5, [Effect.remoteCount]) ∧ (5 : Int) ≠ 0 := by
  exact ⟨rfl, by decide⟩

/-- C3 (amended) — The context-guarded primitives (`Read`, `List`,
`Delete`, `Clear`, `Incre`) log a critical error and return their zero
result / perform no operation when no session context exists, touching no
cache tier and performing no remote call; `Count` (and `Write`) perform no
context check — with no listed flag set, `Count` falls through to the
remote `Count` and returns its result. -/
theorem c3_no_context_guards :
    (∀ meta args model remote st, ReadOp none meta args model remote st = (model, st, [])) ∧
    (∀ meta args model rows st, ListOp none meta args model rows st = ([], st, [])) ∧
    (∀ meta model st, DeleteOp none meta model st = st) ∧
    (∀ meta cond model st, ClearOp none meta cond model st = st) ∧
    (∀ meta model args rmax st, IncreOp none meta model args rmax st = (-1, st, [])) ∧
    (∀ (mt : Meta) cond st (rc : Int), isListed st.sessionListed = false →
      isListed st.globalListed = false →
      CountOp (some mt) cond st rc = (rc, [Effect.remoteCount])) := by
  refine ⟨fun _ _ _ _ _ => rfl, fun _ _ _ _ _ => rfl, fun _ _ _ => rfl,
    fun _ _ _ _ => rfl, fun _ _ _ _ _ => rfl, ?_⟩
  intro mt cond st rc hs hg
  unfold CountOp
  rw [hs, hg]
  simp

/-- C3 (witness) — the amended behaviour at concrete inputs: `Read` with no
context returns the model unchanged with no effects, and `Count` with unset
flags returns the remote count with a remote effect. -/
theorem c3_witness :
    ReadOp none (some { cache := true, writable := true }) []
      { mkey := "a_t", dkey := "a_t_1", payload := 1, valid := true } (fun _ => none)
      { global := none, globalListed := none, session := none,
        sessionListed := none, locks := [], incres := [] }
      = ({ mkey := "a_t", dkey := "a_t_1", payload := 1, valid := true },
         { global := none, globalListed := none, session := none,
           sessionListed := none, locks := [], incres := [] }, []) ∧
    CountOp (some { cache := true, writable := true }) none
      { global := none, globalListed := none, session := none,
        sessionListed := none, locks := [], incres := [] } 7
      = (7, [Effect.remoteCount]) :=
  ⟨c3_no_context_guards.1 (some { cache := true, writable := true }) []
      { mkey := "a_t", dkey := "a_t_1", payload := 1, valid := true } (fun _ => none)
      { global := none, globalListed := none, session := none,
        sessionListed := none, locks := [], incres := [] },
   c3_no_context_guards.2.2.2.2.2 { cache := true, writable := true } none
      { global := none, globalListed := none, session := none,
        sessionListed := none, locks := [], incres := [] } 7 rfl rfl⟩

/-! ## Lemmas about the remote branch of `List` (for C1) -/

theorem alookup_aset_ne {α : Type} (l : List (String × α)) {kw k : String} (v : α)
    (h : kw ≠ k) : alookup (aset l kw v) k = alookup l k := by
  induction l with
  | nil => simp [aset, alookup, h]
  | cons p t ih =>
    obtain ⟨a, b⟩ := p
    by_cases hp : a = kw
    · subst hp
      simp [aset, alookup, h]
    · simp [aset, hp, alookup, ih]

theorem alookup_aupdate_ne {α : Type} (l : List (String × α)) {kw k : String}
    (f : α → α) (h : kw ≠ k) : alookup (aupdate l kw f) k = alookup l k := by
  induction l with
  | nil => simp [aupdate, alookup]
  | cons p t ih =>
    obtain ⟨a, b⟩ := p
    by_cases hp : a = kw
    · subst hp
      simp [aupdate, alookup, h]
    · simp [aupdate, hp, alookup, ih]

theorem alookup_mem {α : Type} {l : List (String × α)} {k : String} {v : α}
    (h : alookup l k = some v) : (k, v) ∈ l := by
  induction l with
  | nil => simp [alookup] at h
  | cons p t ih =>
    obtain ⟨a, b⟩ := p
    by_cases hp : a = k
    · subst hp
      simp [alookup] at h
      subst h
      exact List.mem_cons_self _ _
    · simp [alookup, hp] at h
      exact List.mem_cons_of_mem _ (ih h)

theorem mem_aset {α : Type} {l : List (String × α)} {k : String} {v : α}
    {p : String × α} (h : p ∈ aset l k v) : p ∈ l ∨ p = (k, v) := by
  induction l with
  | nil => simp [aset] at h; exact Or.inr h
  | cons q t ih =>
    obtain ⟨a, b⟩ := q
    by_cases hq : a = k
    · subst hq
      simp [aset] at h
      rcases h with h | h
      · exact Or.inr (by rw [h])
      · exact Or.inl (List.mem_cons_of_mem _ h)
    · simp [aset, hq] at h
      rcases h with h | h
      · exact Or.inl (by rw [h]; exact List.mem_cons_self _ _)
      · rcases ih h with h' | h'
        · exact Or.inl (List.mem_cons_of_mem _ h')
        · exact Or.inr h'

theorem mem_aupdate {α : Type} {l : List (String × α)} {k : String} {f : α → α}
    {p : String × α} (h : p ∈ aupdate l k f) :
    p ∈ l ∨ ∃ q : String × α, q ∈ l ∧ q.1 = k ∧ p = (k, f q.2) := by
  induction l with
  | nil => simp [aupdate] at h
  | cons q t ih =>
    obtain ⟨a, b⟩ := q
    by_cases hq : a = k
    · subst hq
      simp [aupdate] at h
      rcases h with h | h
      · exact Or.inr ⟨(a, b), List.mem_cons_self _ _, rfl, by rw [h]⟩
      · exact Or.inl (List.mem_cons_of_mem _ h)
    · simp [aupdate, hq] at h
      rcases h with h | h
      · exact Or.inl (by rw [h]; exact List.mem_cons_self _ _)
      · rcases ih h with h' | ⟨q', hq', hk', hp'⟩
        · exact Or.inl (List.mem_cons_of_mem _ h')
        · exact Or.inr ⟨q', List.mem_cons_of_mem _ hq', hk', hp'⟩

/-- Well-formedness of a session map: every entry is stored under its
instance's data key. -/
def sessWF (l : List (String × SObj)) : Prop :=
  ∀ p ∈ l, (p.2).ptr.dkey = p.1

theorem setSessionCache_alookup_ne (sess : Option (List (String × SObj)))
    (m : GModel) {k : String} (h : k ≠ m.dkey) :
    alookup (setSessionCache sess m).1 k = alookup (sess.getD []) k := by
  unfold setSessionCache
  cases hm : alookup (sess.getD []) m.dkey with
  | none => simp [hm, alookup_aset_ne _ _ (Ne.symm h)]
  | some sobj =>
    by_cases he : sobj.ptr = m
    · simp [hm, he]
    · simp [hm, he, alookup_aset_ne _ _ (Ne.symm h)]

theorem setSessionCache_sessWF {sess : Option (List (String × SObj))} (m : GModel)
    (h : sessWF (sess.getD [])) : sessWF (setSessionCache sess m).1 := by
  unfold setSessionCache
  cases hm : alookup (sess.getD []) m.dkey with
  | none =>
    simp only [hm]
    intro p hp
    rcases mem_aset hp with hp' | hp'
    · exact h p hp'
    · rw [hp']
  | some sobj =>
    by_cases he : sobj.ptr = m
    · simpa [hm, he] using h
    · simp only [hm, he]
      intro p hp
      rcases mem_aset (by simpa using hp) with hp' | hp'
      · exact h p hp'
      · rw [hp']

theorem aupdate_sessWF {l : List (String × SObj)} {k : String}
    {f : SObj → SObj} (hf : ∀ s, (f s).ptr = s.ptr)
    (h : sessWF l) : sessWF (aupdate l k f) := by
  intro p hp
  rcases mem_aupdate hp with hp' | ⟨q, hq, hk, hp'⟩
  · exact h p hp'
  · rw [hp']
    show (f q.2).ptr.dkey = k
    rw [hf q.2, ← hk]
    exact h q hq

theorem setGlobalCache_alookup_ne (g : Option (List (String × GModel)))
    (m : GModel) {k : String} (h : k ≠ m.dkey) :
    alookup ((setGlobalCache g m).1.getD []) k = alookup (g.getD []) k := by
  unfold setGlobalCache
  cases hm : alookup (g.getD []) m.dkey with
  | none => simp [hm, alookup_aset_ne _ _ (Ne.symm h)]
  | some gobj => simp [hm]

theorem listReconcile_acc_mono (mt : Meta) (w : Bool) (s0p g0p : Bool)
    (rows : List GModel) (st : CacheState) (valids : List String)
    (acc : List GModel) {x : GModel} (hx : x ∈ acc) :
    x ∈ (listReconcile mt w s0p g0p rows st valids acc).2.2 := by
  induction rows generalizing st valids acc with
  | nil => exact hx
  | cons obj t ih =>
    simp only [listReconcile]
    cases h : (listRemoteRow mt w s0p g0p st obj).2 with
    | none =>
      simp only [h]
      exact ih _ _ _ hx
    | some y =>
      simp only [h]
      exact ih _ _ _ (List.mem_append_left _ hx)

theorem listSupplementSession_frets_mono (cond : Option Cond)
    (entries : List (String × SObj)) (valids : List String) (frets : List GModel)
    {x : GModel} (hx : x ∈ frets) :
    x ∈ (listSupplementSession cond entries valids frets).2 := by
  induction entries generalizing valids frets with
  | nil => exact hx
  | cons p t ih =>
    obtain ⟨k, s⟩ := p
    unfold listSupplementSession
    by_cases hv : s.ptr.valid = false
    · rw [if_pos hv]
      exact ih _ _ hx
    · rw [if_neg hv]
      by_cases hc : (!(valids.contains k) && matchs cond s.ptr) = true
      · rw [if_pos hc]
        exact ih _ _ (List.mem_append_left _ hx)
      · rw [if_neg hc]
        exact ih _ _ hx

theorem listAppendAdded_frets_mono (w : Bool) (added : List (String × GModel))
    (sess : Option (List (String × SObj))) (frets : List GModel)
    {x : GModel} (hx : x ∈ frets) :
    x ∈ (listAppendAdded w added sess frets).2 := by
  induction added generalizing sess frets with
  | nil => exact hx
  | cons p t ih =>
    unfold listAppendAdded
    exact ih _ _ (List.mem_append_left _ hx)

theorem listAppendAdded_mem (w : Bool) (added : List (String × GModel))
    (sess : Option (List (String × SObj))) (frets : List GModel)
    {k : String} {g : GModel} (h : (k, g) ∈ added) :
    clone g ∈ (listAppendAdded w added sess frets).2 := by
  induction added generalizing sess frets with
  | nil => simp at h
  | cons p t ih =>
    obtain ⟨k1, g1⟩ := p
    unfold listAppendAdded
    rcases List.mem_cons.mp h with h' | h'
    · rw [Prod.mk.injEq] at h'
      obtain ⟨rfl, rfl⟩ := h'
      exact listAppendAdded_frets_mono _ _ _ _
        (List.mem_append_right _ (List.mem_cons_self _ _))
    · exact ih _ _ h'

/-- Well-formedness of a global map: every instance is stored under its own
data key. -/
def globWF (l : List (String × GModel)) : Prop :=
  ∀ p ∈ l, (p.2).dkey = p.1

theorem setGlobalCache_globWF {g : Option (List (String × GModel))} (m : GModel)
    (h : globWF (g.getD [])) : globWF ((setGlobalCache g m).1.getD []) := by
  unfold setGlobalCache
  cases hm : alookup (g.getD []) m.dkey with
  | none =>
    simp only [hm]
    intro p hp
    rcases mem_aset (by simpa using hp) with hp' | hp'
    · exact h p hp'
    · rw [hp']
  | some gobj => simpa [hm] using h

theorem setGlobalCache_alookup_pres {g : Option (List (String × GModel))}
    (m : GModel) {k : String} {v : GModel} (h : alookup (g.getD []) k = some v) :
    alookup ((setGlobalCache g m).1.getD []) k = some v := by
  unfold setGlobalCache
  cases hm : alookup (g.getD []) m.dkey with
  | none =>
    by_cases hk : m.dkey = k
    · rw [hk] at hm; rw [hm] at h; cases h
    · simp only [hm]
      rw [show ((some (aset (g.getD []) m.dkey m), false) :
            Option (List (String × GModel)) × Bool).1.getD []
          = aset (g.getD []) m.dkey m from rfl]
      rw [alookup_aset_ne _ _ hk]
      exact h
  | some gobj => simpa [hm] using h

/-- Any single reconcile step preserves global-map well-formedness. -/
theorem listRemoteRow_globWF (mt : Meta) (w : Bool) (s0p g0p : Bool)
    (st : CacheState) (obj : GModel) (h : globWF (st.global.getD [])) :
    globWF ((listRemoteRow mt w s0p g0p st obj).1.global.getD []) := by
  unfold listRemoteRow
  cases hso : (if s0p = true then alookup (st.session.getD []) obj.dkey else none) with
  | some s =>
    simp only [hso]
    by_cases hv : s.ptr.valid = true <;> simp [hv, h]
  | none =>
    simp only [hso]
    cases hgo : (if (mt.cache && g0p) = true then alookup (st.global.getD []) obj.dkey
        else none) with
    | some g =>
      simp only [hgo]
      by_cases hv : g.valid = true <;> simp [hv, h]
    | none =>
      simp only [hgo]
      by_cases hc : mt.cache = true
      · simpa [hc] using setGlobalCache_globWF (clone obj) h
      · simpa [hc] using h

/-- Any single reconcile step preserves session-map well-formedness. -/
theorem listRemoteRow_sessWF (mt : Meta) (w : Bool) (s0p g0p : Bool)
    (st : CacheState) (obj : GModel) (h : sessWF (st.session.getD [])) :
    sessWF ((listRemoteRow mt w s0p g0p st obj).1.session.getD []) := by
  have hupd : ∀ (sess : Option (List (String × SObj))) (m : GModel),
      sessWF (sess.getD []) →
      sessWF (aupdate (setSessionCache sess m).1 m.dkey
        (fun s => { s with write := isWritable s.write (some w) })) := by
    intro sess m hw
    exact aupdate_sessWF (fun s => rfl) (setSessionCache_sessWF m hw)
  unfold listRemoteRow
  cases hso : (if s0p = true then alookup (st.session.getD []) obj.dkey else none) with
  | some s =>
    simp only [hso]
    by_cases hv : s.ptr.valid = true <;> simp [hv, h]
  | none =>
    simp only [hso]
    cases hgo : (if (mt.cache && g0p) = true then alookup (st.global.getD []) obj.dkey
        else none) with
    | some g =>
      simp only [hgo]
      by_cases hv : g.valid = true
      · simpa [hv] using hupd st.session (clone g) h
      · simp [hv, h]
    | none =>
      simp only [hgo]
      simpa using hupd st.session obj h

/-- Any single reconcile step preserves a global lookup. -/
theorem listRemoteRow_global_pres (mt : Meta) (w : Bool) (s0p g0p : Bool)
    (st : CacheState) (obj : GModel) {k : String} {v : GModel}
    (h : alookup (st.global.getD []) k = some v) :
    alookup ((listRemoteRow mt w s0p g0p st obj).1.global.getD []) k = some v := by
  unfold listRemoteRow
  cases hso : (if s0p = true then alookup (st.session.getD []) obj.dkey else none) with
  | some s =>
    simp only [hso]
    by_cases hv : s.ptr.valid = true <;> simp [hv, h]
  | none =>
    simp only [hso]
    cases hgo : (if (mt.cache && g0p) = true then alookup (st.global.getD []) obj.dkey
        else none) with
    | some g =>
      simp only [hgo]
      by_cases hv : g.valid = true <;> simp [hv, h]
    | none =>
      simp only [hgo]
      by_cases hc : mt.cache = true
      · simpa [hc] using setGlobalCache_alookup_pres (clone obj) h
      · simpa [hc] using h

/-- A reconcile step for a row stored under a different data key preserves
a session lookup (the well-formedness of the global map guarantees that a
clone drawn from it is keyed by the row's own name). -/
theorem listRemoteRow_session_pres (mt : Meta) (w : Bool) (s0p g0p : Bool)
    (st : CacheState) (obj : GModel) {k0 : String} {s0 : SObj}
    (hgwf : globWF (st.global.getD []))
    (hs : alookup (st.session.getD []) k0 = some s0)
    (hd : obj.dkey ≠ k0) :
    alookup ((listRemoteRow mt w s0p g0p st obj).1.session.getD []) k0 = some s0 := by
  have hupd : ∀ (m : GModel), m.dkey ≠ k0 →
      alookup (aupdate (setSessionCache st.session m).1 m.dkey
        (fun s => { s with write := isWritable s.write (some w) })) k0 = some s0 := by
    intro m hm
    rw [alookup_aupdate_ne _ _ hm, setSessionCache_alookup_ne _ _ (Ne.symm hm)]
    exact hs
  unfold listRemoteRow
  cases hso : (if s0p = true then alookup (st.session.getD []) obj.dkey else none) with
  | some s =>
    simp only [hso]
    by_cases hv : s.ptr.valid = true <;> simp [hv, hs]
  | none =>
    simp only [hso]
    cases hgo : (if (mt.cache && g0p) = true then alookup (st.global.getD []) obj.dkey
        else none) with
    | some g =>
      simp only [hgo]
      have hgk : g.dkey = obj.dkey := by
        by_cases hcg : (mt.cache && g0p) = true
        · rw [if_pos hcg] at hgo
          exact hgwf (obj.dkey, g) (alookup_mem hgo)
        · rw [if_neg hcg] at hgo; cases hgo
      by_cases hv : g.valid = true
      · have : (clone g).dkey ≠ k0 := by
          show g.dkey ≠ k0
          rw [hgk]; exact hd
        simp only [hv]
        simpa [hv] using hupd (clone g) this
      · simp [hv, hs]
    | none =>
      simp only [hgo]
      simpa using hupd obj hd

/-- Invariant of the reconcile loop for a tracked session entry: with a
well-formed global map, a valid session entry under `k0` survives the loop
untouched, and whenever the loop added `k0` to the surviving names it also
appended that entry's instance to the result. -/
theorem listReconcile_session_inv (mt : Meta) (w : Bool) (g0p : Bool)
    {k0 : String} {s0 : SObj} (hv : s0.ptr.valid = true) :
    ∀ (rows : List GModel) (st : CacheState) (valids : List String) (acc : List GModel),
      alookup (st.session.getD []) k0 = some s0 →
      globWF (st.global.getD []) →
      alookup ((listReconcile mt w true g0p rows st valids acc).1.session.getD []) k0
          = some s0 ∧
      globWF ((listReconcile mt w true g0p rows st valids acc).1.global.getD []) ∧
      (k0 ∈ (listReconcile mt w true g0p rows st valids acc).2.1 →
        k0 ∈ valids ∨ s0.ptr ∈ (listReconcile mt w true g0p rows st valids acc).2.2) := by
  intro rows
  induction rows with
  | nil =>
    intro st valids acc hs hgwf
    exact ⟨hs, hgwf, fun h => Or.inl h⟩
  | cons obj t ih =>
    intro st valids acc hs hgwf
    by_cases hd : obj.dkey = k0
    · have hrow : listRemoteRow mt w true g0p st obj = (st, some s0.ptr) := by
        unfold listRemoteRow
        simp [hd, hs, hv]
      simp only [listReconcile, hrow]
      obtain ⟨c1, c2, _⟩ := ih st (valids ++ [obj.dkey]) (acc ++ [s0.ptr]) hs hgwf
      refine ⟨c1, c2, fun _ => Or.inr ?_⟩
      exact listReconcile_acc_mono _ _ _ _ _ _ _ _
        (List.mem_append_right _ (List.mem_cons_self _ _))
    · have hpres := listRemoteRow_session_pres mt w true g0p st obj hgwf hs hd
      have hwf' := listRemoteRow_globWF mt w true g0p st obj hgwf
      simp only [listReconcile]
      cases hr : (listRemoteRow mt w true g0p st obj).2 with
      | none =>
        simp only [hr]
        exact ih _ valids acc hpres hwf'
      | some y =>
        simp only [hr]
        obtain ⟨c1, c2, c3⟩ := ih _ (valids ++ [obj.dkey]) (acc ++ [y]) hpres hwf'
        refine ⟨c1, c2, fun hk => ?_⟩
        rcases c3 hk with hk' | hk'
        · rcases List.mem_append.mp hk' with h' | h'
          · exact Or.inl h'
          · exact absurd (List.mem_singleton.mp h').symm hd
        · exact Or.inr hk'

/-- Invariant of the reconcile loop for a tracked valid global entry: with
well-formed maps the entry survives the loop, well-formedness is preserved,
and whenever the loop added the entry's key to the surviving names it also
appended some instance carrying that data key to the result. -/
theorem listReconcile_global_inv (mt : Meta) (w : Bool) (s0p g0p : Bool)
    {k : String} {g : GModel} (hgd : g.dkey = k) (hgv : g.valid = true) :
    ∀ (rows : List GModel) (st : CacheState) (valids : List String) (acc : List GModel),
      alookup (st.global.getD []) k = some g →
      sessWF (st.session.getD []) →
      globWF (st.global.getD []) →
      alookup ((listReconcile mt w s0p g0p rows st valids acc).1.global.getD []) k
          = some g ∧
      sessWF ((listReconcile mt w s0p g0p rows st valids acc).1.session.getD []) ∧
      globWF ((listReconcile mt w s0p g0p rows st valids acc).1.global.getD []) ∧
      (k ∈ (listReconcile mt w s0p g0p rows st valids acc).2.1 →
        k ∈ valids ∨
          ∃ r ∈ (listReconcile mt w s0p g0p rows st valids acc).2.2, r.dkey = k) := by
  intro rows
  induction rows with
  | nil =>
    intro st valids acc hg hswf hgwf
    exact ⟨hg, hswf, hgwf, fun h => Or.inl h⟩
  | cons obj t ih =>
    intro st valids acc hg hswf hgwf
    have hpresg := listRemoteRow_global_pres mt w s0p g0p st obj hg
    have hwfs := listRemoteRow_sessWF mt w s0p g0p st obj hswf
    have hwfg := listRemoteRow_globWF mt w s0p g0p st obj hgwf
    by_cases hd : obj.dkey = k
    · -- the row carries the tracked key: when it survives, the element
      -- appended for it carries data key k in every branch
      have hsurv : ∀ y, (listRemoteRow mt w s0p g0p st obj).2 = some y → y.dkey = k := by
        intro y hy
        unfold listRemoteRow at hy
        cases hso : (if s0p = true then alookup (st.session.getD []) obj.dkey else none) with
        | some s =>
          have hs0 : s0p = true := by
            cases hb : s0p
            · rw [hb] at hso; simp at hso
            · rfl
          have hlook : alookup (st.session.getD []) obj.dkey = some s := by
            rw [hs0] at hso; simpa using hso
          have hsk : s.ptr.dkey = obj.dkey := hswf (obj.dkey, s) (alookup_mem hlook)
          simp only [hso] at hy
          by_cases hsv : s.ptr.valid = true
          · simp [hsv] at hy
            rw [← hy, hsk, hd]
          · simp [hsv] at hy
        | none =>
          simp only [hso] at hy
          cases hgo : (if (mt.cache && g0p) = true then alookup (st.global.getD []) obj.dkey
              else none) with
          | some g' =>
            have hg' : g' = g := by
              by_cases hcg : (mt.cache && g0p) = true
              · rw [if_pos hcg] at hgo
                rw [hd] at hgo
                rw [hg] at hgo
                exact (Option.some.injEq _ _ ▸ hgo).symm ▸ rfl
              · rw [if_neg hcg] at hgo; cases hgo
            simp only [hgo] at hy
            subst hg'
            by_cases hgv' : g'.valid = true
            · simp [hgv'] at hy
              rw [← hy]
              show (clone g').dkey = k
              rw [show (clone g').dkey = g'.dkey from rfl, hgd]
            · rw [hgv] at hgv'; exact absurd rfl hgv'
          | none =>
            simp only [hgo] at hy
            simp at hy
            rw [← hy]
            exact hd
      simp only [listReconcile]
      cases hr : (listRemoteRow mt w s0p g0p st obj).2 with
      | none =>
        simp only [hr]
        exact ih _ valids acc hpresg hwfs hwfg
      | some y =>
        simp only [hr]
        obtain ⟨c1, c2, c3, _⟩ := ih _ (valids ++ [obj.dkey]) (acc ++ [y]) hpresg hwfs hwfg
        refine ⟨c1, c2, c3, fun _ => Or.inr ?_⟩
        refine ⟨y, ?_, hsurv y hr⟩
        exact listReconcile_acc_mono _ _ _ _ _ _ _ _
          (List.mem_append_right _ (List.mem_cons_self _ _))
    · simp only [listReconcile]
      cases hr : (listRemoteRow mt w s0p g0p st obj).2 with
      | none =>
        simp only [hr]
        exact ih _ valids acc hpresg hwfs hwfg
      | some y =>
        simp only [hr]
        obtain ⟨c1, c2, c3, c4⟩ := ih _ (valids ++ [obj.dkey]) (acc ++ [y]) hpresg hwfs hwfg
        refine ⟨c1, c2, c3, fun hk => ?_⟩
        rcases c4 hk with hk' | hk'
        · rcases List.mem_append.mp hk' with h' | h'
          · exact Or.inl h'
          · exact absurd (List.mem_singleton.mp h').symm hd
        · exact Or.inr hk'

/-- The session supplement includes every valid matching entry whose key
the loop has not yet seen. -/
theorem listSupplementSession_includes (cond : Option Cond)
    (entries : List (String × SObj)) (valids : List String) (frets : List GModel)
    {k : String} {s : SObj}
    (hl : alookup entries k = some s) (hv : s.ptr.valid = true)
    (hm : matchs cond s.ptr = true) :
    k ∈ valids ∨ s.ptr ∈ (listSupplementSession cond entries valids frets).2 := by
  induction entries generalizing valids frets with
  | nil => simp [alookup] at hl
  | cons p t ih =>
    obtain ⟨k1, s1⟩ := p
    by_cases hk : k1 = k
    · subst hk
      rw [show alookup ((k1, s1) :: t) k1 = some s1 by simp [alookup]] at hl
      injection hl with hl
      subst hl
      unfold listSupplementSession
      rw [if_neg (by rw [hv]; simp)]
      by_cases hc : (!(valids.contains k1) && matchs cond s1.ptr) = true
      · rw [if_pos hc]
        exact Or.inr (listSupplementSession_frets_mono _ _ _ _
          (List.mem_append_right _ (List.mem_cons_self _ _)))
      · rw [if_neg hc]
        left
        have hcont : valids.contains k1 = true := by
          by_cases hb : valids.contains k1 = true
          · exact hb
          · refine absurd ?_ hc
            simp only [hm, Bool.and_true, Bool.not_eq_true']
            exact Bool.not_eq_true _ ▸ (Bool.eq_false_iff.mpr hb)
        exact List.mem_of_elem_eq_true hcont
    · rw [show alookup ((k1, s1) :: t) k = alookup t k by simp [alookup, hk]] at hl
      unfold listSupplementSession
      by_cases hv1 : s1.ptr.valid = false
      · rw [if_pos hv1]
        exact ih _ _ hl
      · rw [if_neg hv1]
        by_cases hc : (!(valids.contains k1) && matchs cond s1.ptr) = true
        · rw [if_pos hc]
          rcases ih (valids ++ [k1]) (frets ++ [s1.ptr]) hl with h' | h'
          · rcases List.mem_append.mp h' with h'' | h''
            · exact Or.inl h''
            · exact absurd (List.mem_singleton.mp h'') (Ne.symm hk)
          · exact Or.inr h'
        · rw [if_neg hc]
          exact ih _ _ hl

/-- Every key the session supplement adds to the surviving names comes
with an appended instance carrying that data key (by session
well-formedness). -/
theorem listSupplementSession_valids (cond : Option Cond)
    (entries : List (String × SObj)) (valids : List String) (frets : List GModel)
    (hwf : sessWF entries) {k : String}
    (hk : k ∈ (listSupplementSession cond entries valids frets).1) :
    k ∈ valids ∨ ∃ r ∈ (listSupplementSession cond entries valids frets).2, r.dkey = k := by
  induction entries generalizing valids frets with
  | nil => exact Or.inl hk
  | cons p t ih =>
    obtain ⟨k1, s1⟩ := p
    have hwf1 : s1.ptr.dkey = k1 := hwf (k1, s1) (List.mem_cons_self _ _)
    have hwft : sessWF t := fun q hq => hwf q (List.mem_cons_of_mem _ hq)
    unfold listSupplementSession at hk ⊢
    by_cases hv1 : s1.ptr.valid = false
    · rw [if_pos hv1] at hk ⊢
      exact ih _ _ hwft hk
    · rw [if_neg hv1] at hk ⊢
      by_cases hc : (!(valids.contains k1) && matchs cond s1.ptr) = true
      · rw [if_pos hc] at hk ⊢
        rcases ih (valids ++ [k1]) (frets ++ [s1.ptr]) hwft hk with h' | h'
        · rcases List.mem_append.mp h' with h'' | h''
          · exact Or.inl h''
          · refine Or.inr ⟨s1.ptr, ?_, ?_⟩
            · exact listSupplementSession_frets_mono _ _ _ _
                (List.mem_append_right _ (List.mem_cons_self _ _))
            · rw [hwf1]
              exact (List.mem_singleton.mp h'').symm
        · exact Or.inr h'
      · rw [if_neg hc] at hk ⊢
        exact ih _ _ hwft hk

/-- Inclusion of an unreturned session row in the remote branch of `List`
(remote returned at least one row): a valid matching session entry's
instance is in the final result. -/
theorem listRemoteCore_session_incl (mt : Meta) (w : Bool) (cond : Option Cond)
    (rows : List GModel) (st : CacheState) {k0 : String} {s0 : SObj}
    (hssome : st.session.isSome = true)
    (hs : alookup (st.session.getD []) k0 = some s0)
    (hv : s0.ptr.valid = true) (hm : matchs cond s0.ptr = true)
    (hgwf : globWF (st.global.getD [])) :
    s0.ptr ∈ (listRemoteCore mt w cond rows st).1 := by
  simp only [listRemoteCore]
  rw [hssome]
  simp only [if_pos rfl]
  obtain ⟨c1, _, c3⟩ :=
    listReconcile_session_inv mt w st.global.isSome hv rows st [] [] hs hgwf
  have hsup := listSupplementSession_includes cond
    ((listReconcile mt w true st.global.isSome rows st [] []).1.session.getD [])
    (listReconcile mt w true st.global.isSome rows st [] []).2.1
    (listReconcile mt w true st.global.isSome rows st [] []).2.2 c1 hv hm
  have hmem : s0.ptr ∈ (listSupplementSession cond
      ((listReconcile mt w true st.global.isSome rows st [] []).1.session.getD [])
      (listReconcile mt w true st.global.isSome rows st [] []).2.1
      (listReconcile mt w true st.global.isSome rows st [] []).2.2).2 := by
    rcases hsup with hk | hmem
    · rcases c3 hk with h0 | h0
      · simp at h0
      · exact listSupplementSession_frets_mono _ _ _ _ h0
    · exact hmem
  by_cases hcg : (mt.cache && st.global.isSome) = true
  · simp only [hcg, if_pos rfl]
    exact listAppendAdded_frets_mono _ _ _ _ hmem
  · simp only [if_neg hcg]
    exact hmem

/-- Inclusion of an unreturned global row in the remote branch of `List`:
with caching on, a valid matching global entry's data key appears among the
data keys of the final result. -/
theorem listRemoteCore_global_incl (mt : Meta) (w : Bool) (cond : Option Cond)
    (rows : List GModel) (st : CacheState) {k : String} {g : GModel}
    (hgsome : st.global.isSome = true) (hcache : mt.cache = true)
    (hg : alookup (st.global.getD []) k = some g) (hgd : g.dkey = k)
    (hgv : g.valid = true) (hgm : matchs cond g = true)
    (hswf : sessWF (st.session.getD [])) (hgwf : globWF (st.global.getD [])) :
    ∃ r ∈ (listRemoteCore mt w cond rows st).1, r.dkey = k := by
  simp only [listRemoteCore]
  rw [hgsome]
  have hcg : (mt.cache && true) = true := by simp [hcache]
  simp only [hcg, if_pos rfl]
  obtain ⟨c1, c2, _, c4⟩ :=
    listReconcile_global_inv mt w st.session.isSome true hgd hgv rows st [] [] hg hswf hgwf
  cases hs0 : st.session.isSome with
  | true =>
    rw [hs0] at c1 c2 c4
    simp only [if_pos rfl, if_true]
    by_cases hkv : k ∈ (listSupplementSession cond
        ((listReconcile mt w true true rows st [] []).1.session.getD [])
        (listReconcile mt w true true rows st [] []).2.1
        (listReconcile mt w true true rows st [] []).2.2).1
    · have hval := listSupplementSession_valids cond
        ((listReconcile mt w true true rows st [] []).1.session.getD [])
        (listReconcile mt w true true rows st [] []).2.1
        (listReconcile mt w true true rows st [] []).2.2 c2 hkv
      rcases hval with hk | ⟨r, hr, hrd⟩
      · rcases c4 hk with h0 | ⟨r, hr, hrd⟩
        · simp at h0
        · refine ⟨r, ?_, hrd⟩
          exact listAppendAdded_frets_mono _ _ _ _
            (listSupplementSession_frets_mono _ _ _ _ hr)
      · refine ⟨r, ?_, hrd⟩
        exact listAppendAdded_frets_mono _ _ _ _ hr
    · have hmemg : (k, g) ∈ listCollectAdded cond
          (listSupplementSession cond
            ((listReconcile mt w true true rows st [] []).1.session.getD [])
            (listReconcile mt w true true rows st [] []).2.1
            (listReconcile mt w true true rows st [] []).2.2).1
          ((listReconcile mt w true true rows st [] []).1.global.getD []) := by
        unfold listCollectAdded
        refine List.mem_filter.mpr ⟨alookup_mem c1, ?_⟩
        simp only [hgv, hgm, Bool.and_true, Bool.true_and]
        simp only [Bool.not_eq_true']
        exact Bool.not_eq_true _ ▸ (Bool.eq_false_iff.mpr
          (fun hcc => hkv (List.mem_of_elem_eq_true hcc)))
      refine ⟨clone g, listAppendAdded_mem w _ _ _ hmemg, ?_⟩
      show (clone g).dkey = k
      rw [show (clone g).dkey = g.dkey from rfl, hgd]
  | false =>
    rw [hs0] at c1 c2 c4
    simp only [Bool.false_eq_true, if_false, if_true]
    by_cases hkv : k ∈ (listReconcile mt w false true rows st [] []).2.1
    · rcases c4 hkv with h0 | ⟨r, hr, hrd⟩
      · simp at h0
      · refine ⟨r, ?_, hrd⟩
        exact listAppendAdded_frets_mono _ _ _ _ hr
    · have hmemg : (k, g) ∈ listCollectAdded cond
          (listReconcile mt w false true rows st [] []).2.1
          ((listReconcile mt w false true rows st [] []).1.global.getD []) := by
        unfold listCollectAdded
        refine List.mem_filter.mpr ⟨alookup_mem c1, ?_⟩
        simp only [hgv, hgm, Bool.and_true, Bool.true_and]
        simp only [Bool.not_eq_true']
        exact Bool.not_eq_true _ ▸ (Bool.eq_false_iff.mpr
          (fun hcc => hkv (List.mem_of_elem_eq_true hcc)))
      refine ⟨clone g, listAppendAdded_mem w _ _ _ hmemg, ?_⟩
      show (clone g).dkey = k
      rw [show (clone g).dkey = g.dkey from rfl, hgd]

/-- With both listed flags unset, `List` takes the remote branch. -/
theorem ListOp_remote_fst (cw : Bool) (mt : Meta) (args : List WArg) (model : GModel)
    (rows : List GModel) (st : CacheState)
    (hsl : isListed st.sessionListed = false) (hgl : isListed st.globalListed = false) :
    (ListOp (some cw) (some mt) args model rows st).1
      = (listRemote mt (parseArgs mt.writable args).1 (parseArgs mt.writable args).2
          model rows st).1 := by
  simp only [ListOp, hsl, hgl, Bool.false_eq_true, if_false]

/-- C1 (counterexample) — A `List` call that falls through to the remote
tier and gets zero rows back skips the whole supplement step: a valid
session entry matching the condition is not included in the returned slice
(which is empty), although the claim says it is included also when the
remote call returns zero rows. -/
theorem c1_counterexample :
    (ListOp (some true) (some { cache := true, writable := true })
        [WArg.wcond (fun _ => true)]
        { mkey := "a_t", dkey := "a_t_0", payload := 0, valid := true }
        []
        { global := some [], globalListed := some false,
          session := some [("a_t_1",
            { raw := none,
              ptr := { mkey := "a_t", dkey := "a_t_1", payload := 1, valid := true },
              write := 0, create := false, delete := false, clear := none })],
          sessionListed := some false, locks := [], incres := [] }).1 = [] ∧
    (GModel.valid { mkey := "a_t", dkey := "a_t_1", payload := 1, valid := true }) = true ∧
    ((fun _ => true) : Cond) { mkey := "a_t", dkey := "a_t_1", payload := 1, valid := true }
      = true := by
  exact ⟨rfl, rfl, rfl⟩

/-- C1 (amended) — For every `List` call that falls through to the remote
tier and whose remote call returns at least one row, every row present in
the session tier (valid and matching the condition) is included in the
returned slice, and every row present in the global tier (valid, matching,
with caching on) has its data key among the returned rows' data keys —
even when the remote did not return it.  When the remote call returns
zero rows the reconcile-and-supplement block is skipped entirely (see the
counterexample), so this coverage holds only for a non-empty remote
result. -/
theorem c1_list_remote_supplement (cw : Bool) (mt : Meta) (args : List WArg)
    (model : GModel) (rows : List GModel) (st : CacheState)
    (hrows : rows ≠ [])
    (hsl : isListed st.sessionListed = false) (hgl : isListed st.globalListed = false)
    (hswf : sessWF (st.session.getD [])) (hgwf : globWF (st.global.getD [])) :
    (∀ (k0 : String) (s0 : SObj), st.session.isSome = true →
      alookup (st.session.getD []) k0 = some s0 → s0.ptr.valid = true →
      matchs (parseArgs mt.writable args).2 s0.ptr = true →
      s0.ptr ∈ (ListOp (some cw) (some mt) args model rows st).1) ∧
    (∀ (k : String) (g : GModel), st.global.isSome = true → mt.cache = true →
      alookup (st.global.getD []) k = some g → g.dkey = k → g.valid = true →
      matchs (parseArgs mt.writable args).2 g = true →
      ∃ r ∈ (ListOp (some cw) (some mt) args model rows st).1, r.dkey = k) := by
  rw [ListOp_remote_fst cw mt args model rows st hsl hgl]
  cases rows with
  | nil => exact absurd rfl hrows
  | cons a t =>
    have hshape : (listRemote mt (parseArgs mt.writable args).1
          (parseArgs mt.writable args).2 model (a :: t) st).1
        = (listRemoteCore mt (parseArgs mt.writable args).1
            (parseArgs mt.writable args).2 (a :: t)
            { st with locks := (globalWait st.locks model.mkey).1 }).1 := rfl
    rw [hshape]
    constructor
    · intro k0 s0 hsome hs hv hm
      exact listRemoteCore_session_incl mt _ _ (a :: t) _ hsome hs hv hm hgwf
    · intro k g hgsome hcache hg hgd hgv hgm
      exact listRemoteCore_global_incl mt _ _ (a :: t) _ hgsome hcache hg hgd hgv hgm
        hswf hgwf

/-- C1 (witness) — the amended behaviour at a concrete input: with one
remote row, an unreturned valid matching session entry's instance is in the
result of `List`. -/
theorem c1_witness :
    (GModel.mk "a_t" "a_t_1" 1 true) ∈
      (ListOp (some true) (some { cache := true, writable := true })
        [WArg.wcond (fun _ => true)]
        { mkey := "a_t", dkey := "a_t_0", payload := 0, valid := true }
        [{ mkey := "a_t", dkey := "a_t_9", payload := 9, valid := true }]
        { global := some [], globalListed := some false,
          session := some [("a_t_1",
            { raw := none, ptr := GModel.mk "a_t" "a_t_1" 1 true,
              write := 0, create := false, delete := false, clear := none })],
          sessionListed := some false, locks := [], incres := [] }).1 := by
  refine (c1_list_remote_supplement true { cache := true, writable := true }
      [WArg.wcond (fun _ => true)]
      { mkey := "a_t", dkey := "a_t_0", payload := 0, valid := true }
      [{ mkey := "a_t", dkey := "a_t_9", payload := 9, valid := true }]
      { global := some [], globalListed := some false,
        session := some [("a_t_1",
          { raw := none, ptr := GModel.mk "a_t" "a_t_1" 1 true,
            write := 0, create := false, delete := false, clear := none })],
        sessionListed := some false, locks := [], incres := [] }
      (by simp) rfl rfl ?_ ?_).1 "a_t_1"
      { raw := none, ptr := GModel.mk "a_t" "a_t_1" 1 true,
        write := 0, create := false, delete := false, clear := none }
      rfl rfl rfl rfl
  · intro p hp
    rw [List.mem_singleton.mp hp]
  · intro p hp
    simp at hp

end XOrm
